import Mathlib

/-!
Verification development for a Telegram scheduled-message bot.

The repository contains two overlapping implementations of the
Scheduled Message Dispatch Engine:

* `telegram_bot.py` — class `SchedulerBot`: SQLite `schedules` table,
  one `JobQueue` job per record, timezone stored in the record at
  creation time, hard `DELETE` on removal.
* `scheduler.py` + `database.py` — class `MessageScheduler` over
  `BotDatabase`: SQLite `scheduled_messages` table joined with a
  `groups` table, a one-minute polling loop, timezone read live from
  the group row on every evaluation, soft delete (`is_active = 0`).

Both are embedded below.  Strings are modelled as `List Char`;
Python `str.replace` is modelled by `replaceAll`; `datetime.date`
values are modelled by `PyDate` (year/month/day) with Python's
tuple comparison and `toordinal` arithmetic; timezones are modelled
as fixed UTC offsets in minutes looked up from the IANA name
(the embedding ignores DST transitions).
-/

namespace Bot

/-! ### Characters and digit rendering -/

/-- The character `{`, written via an escape so it can be used freely. -/
def lbrace : Char := '\x7b'

/-- The character `}`. -/
def rbrace : Char := '\x7d'

/-- Decimal digit character for `n < 10` (as produced by Python's `str`). -/
def digitChar (n : Nat) : Char :=
  match n with
  | 0 => '0' | 1 => '1' | 2 => '2' | 3 => '3' | 4 => '4'
  | 5 => '5' | 6 => '6' | 7 => '7' | 8 => '8' | _ => '9'

/-- Fuelled helper for `natToChars`; the fuel only serves to make the
recursion structural (so that it reduces definitionally) and is never
exhausted when it starts at `n + 1`. -/
def natToCharsAux : Nat → Nat → List Char
  | 0, _ => []
  | fuel + 1, n =>
    if n < 10 then [digitChar n]
    else natToCharsAux fuel (n / 10) ++ [digitChar (n % 10)]

/-- Decimal rendering of a natural number, as Python's `str(n)`. -/
def natToChars (n : Nat) : List Char := natToCharsAux (n + 1) n

/-- Zero-padded two-digit rendering, as `strftime` `%m`/`%d`/`%H`/`%M`. -/
def pad2 (n : Nat) : List Char :=
  if n < 10 then '0' :: natToChars n else natToChars n

/-- Zero-padded four-digit rendering, as `strftime` `%Y`. -/
def pad4 (n : Nat) : List Char :=
  if n < 10 then '0' :: '0' :: '0' :: natToChars n
  else if n < 100 then '0' :: '0' :: natToChars n
  else if n < 1000 then '0' :: natToChars n
  else natToChars n

/-- Decimal rendering of an integer, as Python's `str` on `int`. -/
def intToChars (i : Int) : List Char :=
  if i < 0 then '-' :: natToChars i.natAbs else natToChars i.natAbs

/-! ### Python `str.replace`

`replaceAll pat val s` replaces every non-overlapping occurrence of
`pat` in `s` by `val`, scanning left to right — the semantics of
Python's `s.replace(pat, val)` for a non-empty `pat`. -/

/-- Fuelled helper for `replaceAll`; the fuel only makes the recursion
structural and is never exhausted when it starts above the length of
the subject string. -/
def replaceAllAux (pat val : List Char) : Nat → List Char → List Char
  | 0, s => s
  | _ + 1, [] => []
  | fuel + 1, c :: s =>
    if pat ≠ [] ∧ pat.isPrefixOf (c :: s) then
      val ++ replaceAllAux pat val fuel ((c :: s).drop pat.length)
    else
      c :: replaceAllAux pat val fuel s

def replaceAll (pat val s : List Char) : List Char :=
  replaceAllAux pat val (s.length + 1) s

/-- The fuel is irrelevant as long as it exceeds the string length. -/
theorem replaceAllAux_fuel {pat val : List Char} :
    ∀ f1 f2 s, s.length < f1 → s.length < f2 →
      replaceAllAux pat val f1 s = replaceAllAux pat val f2 s := by
  intro f1
  induction f1 with
  | zero => intro f2 s h1; omega
  | succ n ih =>
    intro f2 s h1 h2
    cases f2 with
    | zero => omega
    | succ m =>
      cases s with
      | nil => rfl
      | cons c t =>
        simp only [replaceAllAux]
        by_cases hp : pat ≠ [] ∧ pat.isPrefixOf (c :: t)
        · rw [if_pos hp, if_pos hp]
          have hlen : 0 < pat.length := List.length_pos.mpr hp.1
          have hd : ((c :: t).drop pat.length).length < n := by
            simp only [List.length_drop, List.length_cons]
            simp only [List.length_cons] at h1
            omega
          have hd2 : ((c :: t).drop pat.length).length < m := by
            simp only [List.length_drop, List.length_cons]
            simp only [List.length_cons] at h2
            omega
          rw [ih m _ hd hd2]
        · rw [if_neg hp, if_neg hp]
          have ht : t.length < n := by
            simp only [List.length_cons] at h1
            omega
          have ht2 : t.length < m := by
            simp only [List.length_cons] at h2
            omega
          rw [ih m _ ht ht2]

/-- Step lemma: empty subject. -/
theorem replaceAll_nil (pat val : List Char) : replaceAll pat val [] = [] := rfl

/-- Step lemma: a match at the head is replaced. -/
theorem replaceAll_cons_pos {pat : List Char} (val : List Char) {c : Char}
    {s : List Char} (h : pat ≠ [] ∧ pat.isPrefixOf (c :: s)) :
    replaceAll pat val (c :: s)
      = val ++ replaceAll pat val ((c :: s).drop pat.length) := by
  unfold replaceAll
  rw [show replaceAllAux pat val ((c :: s).length + 1) (c :: s)
      = val ++ replaceAllAux pat val (c :: s).length ((c :: s).drop pat.length) by
    simp only [replaceAllAux, if_pos h]]
  congr 1
  have hlen : 0 < pat.length := List.length_pos.mpr h.1
  refine replaceAllAux_fuel _ _ _ ?_ ?_ <;>
    simp only [List.length_drop, List.length_cons] <;> omega

/-- Step lemma: no match at the head, the character is copied. -/
theorem replaceAll_cons_neg {pat : List Char} (val : List Char) {c : Char}
    {s : List Char} (h : ¬(pat ≠ [] ∧ pat.isPrefixOf (c :: s))) :
    replaceAll pat val (c :: s) = c :: replaceAll pat val s := by
  unfold replaceAll
  rw [show replaceAllAux pat val ((c :: s).length + 1) (c :: s)
      = c :: replaceAllAux pat val (c :: s).length s by
    simp only [replaceAllAux, if_neg h]]
  rfl

/-! ### Dates (`datetime.date`) -/

/-- A Python `datetime.date` triple.  Python guarantees
`1 ≤ year ≤ 9999`, `1 ≤ month ≤ 12`, `1 ≤ day ≤ days_in_month`;
the predicate `ValidDate` captures this. -/
structure PyDate where
  year : Nat
  month : Nat
  day : Nat
deriving DecidableEq, Repr

/-- Gregorian leap-year test (`calendar.isleap`). -/
def isLeap (y : Nat) : Bool :=
  (y % 4 == 0 && y % 100 != 0) || (y % 400 == 0)

/-- Number of days in a month of a given year. -/
def daysInMonth (y m : Nat) : Nat :=
  match m with
  | 1 => 31 | 3 => 31 | 5 => 31 | 7 => 31 | 8 => 31 | 10 => 31 | 12 => 31
  | 4 => 30 | 6 => 30 | 9 => 30 | 11 => 30
  | 2 => if isLeap y then 29 else 28
  | _ => 0

/-- Validity of a `PyDate`, as enforced by the `datetime.date` constructor. -/
def ValidDate (d : PyDate) : Prop :=
  1 ≤ d.year ∧ d.year ≤ 9999 ∧ 1 ≤ d.month ∧ d.month ≤ 12 ∧
  1 ≤ d.day ∧ d.day ≤ daysInMonth d.year d.month

instance (d : PyDate) : Decidable (ValidDate d) := by
  unfold ValidDate; infer_instance

/-- Cumulative days before month `m` in a non-leap year. -/
def cumDays (m : Nat) : Nat :=
  match m with
  | 1 => 0 | 2 => 31 | 3 => 59 | 4 => 90 | 5 => 120 | 6 => 151
  | 7 => 181 | 8 => 212 | 9 => 243 | 10 => 273 | 11 => 304 | _ => 334

/-- Python `date.toordinal`: day number in the proleptic Gregorian
calendar with `0001-01-01` having ordinal 1. -/
def toOrdinal (d : PyDate) : Nat :=
  let y := d.year - 1
  365 * y + y / 4 - y / 100 + y / 400 +
    cumDays d.month + (if 3 ≤ d.month && isLeap d.year then 1 else 0) + d.day

/-- Python `date` comparison: lexicographic on `(year, month, day)`. -/
def dateLt (a b : PyDate) : Bool :=
  a.year < b.year ||
    (a.year == b.year &&
      (a.month < b.month || (a.month == b.month && a.day < b.day)))

/-- Python `date` subtraction `a - b`, in whole days
(`timedelta.days` of a difference of two dates). -/
def dateSub (a b : PyDate) : Int :=
  (toOrdinal a : Int) - (toOrdinal b : Int)

/-- Python `date.weekday()`: Monday is 0.  Ordinal 1 (0001-01-01) was
a Monday. -/
def weekday (d : PyDate) : Nat :=
  (toOrdinal d - 1) % 7

/-- Full weekday name, `strftime` `%A`. -/
def dayName (d : PyDate) : List Char :=
  (match weekday d with
   | 0 => "Monday" | 1 => "Tuesday" | 2 => "Wednesday" | 3 => "Thursday"
   | 4 => "Friday" | 5 => "Saturday" | _ => "Sunday").toList

/-- Full month name, `strftime` `%B` (months are 1-based). -/
def monthName (m : Nat) : List Char :=
  (match m with
   | 1 => "January" | 2 => "February" | 3 => "March" | 4 => "April"
   | 5 => "May" | 6 => "June" | 7 => "July" | 8 => "August"
   | 9 => "September" | 10 => "October" | 11 => "November" | _ => "December").toList

/-- The `strftime('%B %d, %Y')` rendering used for countdown target dates. -/
def fmtLongDate (d : PyDate) : List Char :=
  monthName d.month ++ " ".toList ++ pad2 d.day ++ ", ".toList ++ pad4 d.year

/-! ### Local date-times

A timezone-local wall-clock instant at minute granularity, as seen by
the bot when it evaluates or renders a schedule. -/

structure LocalDT where
  date : PyDate
  hour : Nat
  minute : Nat
deriving DecidableEq, Repr

/-! ### Parsing -/

/-- Python `int(s)` restricted to the shapes that occur here: optional
leading/trailing spaces, an optional sign, then one or more digits. -/
def pyInt (s : List Char) : Option Int :=
  let t := (s.dropWhile (· = ' ')).reverse.dropWhile (· = ' ') |>.reverse
  let (neg, digits) :=
    match t with
    | '-' :: r => (true, r)
    | '+' :: r => (false, r)
    | r => (false, r)
  if digits ≠ [] ∧ digits.all (·.isDigit) then
    let n := digits.foldl (fun acc c => 10 * acc + (c.toNat - '0'.toNat)) 0
    some (if neg then -(n : Int) else (n : Int))
  else none

/-- `telegram_bot.parse_hhmm`: split on the first `:`, parse both parts
with `int`, and require `0 ≤ hour < 24` and `0 ≤ minute < 60`.
Returns `none` when the string cannot be parsed. -/
def parse_hhmm (s : List Char) : Option (Nat × Nat) :=
  match s.splitOn ':' with
  | [_] => none
  | hs :: rest =>
    let ms := (rest.intersperse [':']).flatten
    match pyInt hs, pyInt ms with
    | some h, some m =>
      if 0 ≤ h ∧ h < 24 ∧ 0 ≤ m ∧ m < 60 then
        some (h.toNat, m.toNat)
      else none
    | _, _ => none
  | [] => none

/-- All characters are decimal digits. -/
def allDigits (s : List Char) : Bool := s.all (·.isDigit)

/-- Numeric value of a digit string. -/
def digitsVal (s : List Char) : Nat :=
  s.foldl (fun acc c => 10 * acc + (c.toNat - '0'.toNat)) 0

/-- `datetime.strptime(s, '%Y-%m-%d').date()`: four year digits, one or
two month digits, one or two day digits, separated by `-`, the whole
string consumed, and the triple must be a valid calendar date.
Returns `none` when parsing or validation fails
(`telegram_bot.parse_date`, and the `ValueError` branch in
`scheduler._format_countdown_message`). -/
def parse_date (s : List Char) : Option PyDate :=
  match s.splitOn '-' with
  | [ys, ms, ds] =>
    if ys.length = 4 ∧ allDigits ys ∧
       1 ≤ ms.length ∧ ms.length ≤ 2 ∧ allDigits ms ∧
       1 ≤ ds.length ∧ ds.length ≤ 2 ∧ allDigits ds then
      let d : PyDate := ⟨digitsVal ys, digitsVal ms, digitsVal ds⟩
      if ValidDate d then some d else none
    else none
  | _ => none

/-- `datetime.strptime(s, '%H:%M')` as a validity test: one or two hour
digits with value `< 24`, a `:`, one or two minute digits with value
`< 60`, whole string consumed (used by `scheduler.add_daily_message`
and `add_countdown_message`). -/
def validTimeHHMM (s : List Char) : Bool :=
  match s.splitOn ':' with
  | [hs, ms] =>
    decide (1 ≤ hs.length ∧ hs.length ≤ 2) && allDigits hs &&
    decide (1 ≤ ms.length ∧ ms.length ≤ 2) && allDigits ms &&
    decide (digitsVal hs < 24) && decide (digitsVal ms < 60)
  | _ => false

/-! ### Template keys shared by both renderers -/

/-- The template key written `{date}` in the source. -/
def keyDate : List Char := lbrace :: "date".toList ++ [rbrace]

/-- The template key written `{time}` in the source. -/
def keyTime : List Char := lbrace :: "time".toList ++ [rbrace]

/-- The template key written `{day}` in the source. -/
def keyDay : List Char := lbrace :: "day".toList ++ [rbrace]

/-- The template key written `{month}` in the source. -/
def keyMonth : List Char := lbrace :: "month".toList ++ [rbrace]

/-- The template key written `{year}` in the source. -/
def keyYear : List Char := lbrace :: "year".toList ++ [rbrace]

/-- The `strftime('%Y-%m-%d')` value substituted for `{date}`. -/
def fmtDate (t : LocalDT) : List Char :=
  pad4 t.date.year ++ ['-'] ++ pad2 t.date.month ++ ['-'] ++ pad2 t.date.day

/-- The `strftime('%H:%M')` value substituted for `{time}`. -/
def fmtTime (t : LocalDT) : List Char :=
  pad2 t.hour ++ [':'] ++ pad2 t.minute

/-! ### telegram_bot.py — class SchedulerBot -/

/-- A row of the `schedules` table (`telegram_bot.ScheduleRecord`). -/
structure ScheduleRecord where
  id : Nat
  chat_id : Int
  schedule_type : List Char
  time_str : List Char
  end_date_str : Option (List Char)
  message : List Char
  timezone : List Char
deriving DecidableEq, Repr

/-- The parameters `SchedulerBot._schedule_job` passes to
`job_queue.run_daily`: the time of day, the timezone it is interpreted
in, and which callback was selected for the record's type. -/
structure JobSpec where
  hour : Nat
  minute : Nat
  tz : List Char
  kind : List Char
deriving DecidableEq, Repr

/-- In-memory and persisted state of a `SchedulerBot`: the `schedules`
and `chat_timezones` SQLite tables plus the `active_jobs` dict. -/
structure TgBot where
  schedules : List ScheduleRecord
  chat_timezones : List (Int × List Char)
  active_jobs : List (Nat × JobSpec)
deriving DecidableEq, Repr

/-- Next AUTOINCREMENT id for a list of already-used ids. -/
def freshId (ids : List Nat) : Nat := ids.foldr max 0 + 1

/-- `SchedulerBot._get_chat_timezone`: row from `chat_timezones`,
defaulting to `"UTC"`. -/
def get_chat_timezone (bot : TgBot) (chat : Int) : List Char :=
  match bot.chat_timezones.find? (fun p => p.1 == chat) with
  | some p => p.2
  | none => "UTC".toList

/-- The job `_schedule_job` would create for a record: `none` when the
stored time string does not parse or the type is unknown (the record
is then skipped with an error log). -/
def scheduleJob (r : ScheduleRecord) : Option JobSpec :=
  match parse_hhmm r.time_str with
  | none => none
  | some (h, m) =>
    if r.schedule_type = "daily".toList ∨ r.schedule_type = "countdown".toList ∨
        r.schedule_type = "repeating".toList then
      some ⟨h, m, r.timezone, r.schedule_type⟩
    else none

/-- Python dict assignment `active_jobs[id] = job`. -/
def jobsInsert (jobs : List (Nat × JobSpec)) (sid : Nat) (spec : JobSpec) :
    List (Nat × JobSpec) :=
  jobs.filter (fun p => p.1 ≠ sid) ++ [(sid, spec)]

/-- `SchedulerBot._schedule_job` as a state update: registers the
record's job in `active_jobs` (no-op when the record is skipped). -/
def schedule_job (bot : TgBot) (r : ScheduleRecord) : TgBot :=
  match scheduleJob r with
  | some spec => { bot with active_jobs := jobsInsert bot.active_jobs r.id spec }
  | none => bot

/-- `SchedulerBot._restore_schedules`: iterate every persisted row and
recreate its job. -/
def restore_schedules (bot : TgBot) : TgBot :=
  bot.schedules.foldl schedule_job bot

/-- Outcome reported to the user by a create command. -/
inductive CreateResult where
  | ok (id : Nat)
  | invalidInput
deriving DecidableEq, Repr

/-- `SchedulerBot.setschedule`: parse the time, and on success insert a
`daily` row (timezone resolved now from `chat_timezones`) and register
its job.  On a parse failure nothing is inserted. -/
def setschedule (bot : TgBot) (chat : Int) (time_str message : List Char) :
    TgBot × CreateResult :=
  match parse_hhmm time_str with
  | none => (bot, .invalidInput)
  | some _ =>
    let tz := get_chat_timezone bot chat
    let sid := freshId (bot.schedules.map (·.id))
    let r : ScheduleRecord := ⟨sid, chat, "daily".toList, time_str, none, message, tz⟩
    let bot1 := { bot with schedules := bot.schedules ++ [r] }
    (schedule_job bot1 r, .ok sid)

/-- `SchedulerBot.setcountdown`: parse time and date, and on success
insert a `countdown` row and register its job. -/
def setcountdown (bot : TgBot) (chat : Int) (time_str date_str title : List Char) :
    TgBot × CreateResult :=
  match parse_hhmm time_str, parse_date date_str with
  | some _, some _ =>
    let tz := get_chat_timezone bot chat
    let sid := freshId (bot.schedules.map (·.id))
    let r : ScheduleRecord := ⟨sid, chat, "countdown".toList, time_str, some date_str, title, tz⟩
    let bot1 := { bot with schedules := bot.schedules ++ [r] }
    (schedule_job bot1 r, .ok sid)
  | _, _ => (bot, .invalidInput)

/-- Outcome of a remove command. -/
inductive RemoveResult where
  | removed
  | notFound
deriving DecidableEq, Repr

/-- `SchedulerBot.removeschedule`: `DELETE FROM schedules WHERE id = ?`
(note: no `chat_id` condition), cancel the job, and report based on
`cur.rowcount`.  `_chat` is the chat the command was issued from; the
source reads it but does not use it in the deletion. -/
def removeschedule (bot : TgBot) (_chat : Int) (sid : Nat) : TgBot × RemoveResult :=
  let deleted := (bot.schedules.filter (fun r => r.id == sid)).length
  let bot1 := { bot with
    schedules := bot.schedules.filter (fun r => r.id ≠ sid),
    active_jobs := bot.active_jobs.filter (fun p => p.1 ≠ sid) }
  (bot1, if deleted > 0 then .removed else .notFound)

/-- `SchedulerBot._cancel_schedule`: delete the row and pop the job. -/
def cancel_schedule (bot : TgBot) (sid : Nat) : TgBot :=
  { bot with
    schedules := bot.schedules.filter (fun r => r.id ≠ sid),
    active_jobs := bot.active_jobs.filter (fun p => p.1 ≠ sid) }

/-- `SchedulerBot._apply_templates`: sequential `str.replace` over the
five keys, in the source's dict order. -/
def apply_templates (message : List Char) (t : LocalDT) : List Char :=
  let r1 := replaceAll keyDate (fmtDate t) message
  let r2 := replaceAll keyTime (fmtTime t) r1
  let r3 := replaceAll keyDay (dayName t.date) r2
  let r4 := replaceAll keyMonth (monthName t.date.month) r3
  replaceAll keyYear (pad4 t.date.year) r4

/-- `SchedulerBot._daily_callback`.  `localNow tz` is the injected
`datetime.now(pytz.timezone(tz))`: the current wall-clock instant
localized to timezone `tz`.  The callback re-reads the chat's current
timezone for rendering.  Returns the new state and the list of
`(chat_id, text)` messages sent. -/
def daily_callback (bot : TgBot) (sid : Nat) (localNow : List Char → LocalDT) :
    TgBot × List (Int × List Char) :=
  match bot.schedules.find? (fun r => r.id == sid && r.schedule_type == "daily".toList) with
  | none => (bot, [])
  | some r =>
    let tz := get_chat_timezone bot r.chat_id
    (bot, [(r.chat_id, apply_templates r.message (localNow tz))])

/-- `SchedulerBot._countdown_callback`: look up the row, parse its end
date, and either retire the schedule with a terminal notification
(when the local date is strictly past the end date) or send the
days-remaining message. -/
def countdown_callback (bot : TgBot) (sid : Nat) (localNow : List Char → LocalDT) :
    TgBot × List (Int × List Char) :=
  match bot.schedules.find? (fun r => r.id == sid && r.schedule_type == "countdown".toList) with
  | none => (bot, [])
  | some r =>
    match parse_date (r.end_date_str.getD []) with
    | none => (bot, [])
    | some endd =>
      let today := (localNow r.timezone).date
      if dateLt endd today then
        (cancel_schedule bot sid,
         [(r.chat_id, "Countdown for ".toList ++ r.message ++ " has ended.".toList)])
      else
        let days := dateSub endd today
        (bot, [(r.chat_id,
          intToChars days ++ " day".toList ++
            (if days ≠ 1 then "s".toList else []) ++
            " remaining until ".toList ++ r.message ++ "!".toList)])

/-- `SchedulerBot._repeating_callback`: like the countdown callback but
retirement is silent and the regular message is rendered through the
template engine. -/
def repeating_callback (bot : TgBot) (sid : Nat) (localNow : List Char → LocalDT) :
    TgBot × List (Int × List Char) :=
  match bot.schedules.find? (fun r => r.id == sid && r.schedule_type == "repeating".toList) with
  | none => (bot, [])
  | some r =>
    match parse_date (r.end_date_str.getD []) with
    | none => (bot, [])
    | some endd =>
      let today := (localNow r.timezone).date
      if dateLt endd today then
        (cancel_schedule bot sid, [])
      else
        (bot, [(r.chat_id, apply_templates r.message (localNow r.timezone))])

/-! ### database.py — class BotDatabase -/

/-- A row of the `groups` table. -/
structure GroupRow where
  chat_id : Int
  group_name : List Char
  timezone : List Char
deriving DecidableEq, Repr

/-- A row of the `scheduled_messages` table. -/
structure MsgRow where
  id : Nat
  chat_id : Int
  message_type : List Char
  schedule_time : List Char
  message_template : List Char
  target_date : Option (List Char)
  title : Option (List Char)
  is_active : Bool
deriving DecidableEq, Repr

/-- The two tables of `BotDatabase` that the engine uses. -/
structure BotDB where
  groups : List GroupRow
  scheduled_messages : List MsgRow
deriving DecidableEq, Repr

/-- `BotDatabase.add_group`: `INSERT OR REPLACE` keyed by `chat_id`. -/
def add_group (db : BotDB) (chat : Int) (name tz : List Char) : BotDB :=
  { db with groups := db.groups.filter (fun g => g.chat_id ≠ chat) ++ [⟨chat, name, tz⟩] }

/-- `BotDatabase.add_scheduled_message`: insert a new active row with
the next AUTOINCREMENT id. -/
def add_scheduled_message (db : BotDB) (chat : Int) (mtype stime tmpl : List Char)
    (target title : Option (List Char)) : BotDB :=
  { db with scheduled_messages := db.scheduled_messages ++
      [⟨freshId (db.scheduled_messages.map (·.id)), chat, mtype, stime, tmpl, target, title, true⟩] }

/-- A joined row as returned by `get_scheduled_messages`: the message
row together with `g.timezone` and `g.group_name` from the **current**
`groups` table. -/
structure MsgConfig where
  row : MsgRow
  timezone : List Char
  group_name : List Char
deriving DecidableEq, Repr

/-- `BotDatabase.get_scheduled_messages`: active rows joined with the
`groups` table (rows whose chat has no group row are dropped by the
inner join).  The chat filter applies only when `chat_id` is truthy in
Python, i.e. present and nonzero. -/
def get_scheduled_messages (db : BotDB) (chat : Option Int) : List MsgConfig :=
  let flt : Option Int := match chat with
    | some c => if c = 0 then none else some c
    | none => none
  (db.scheduled_messages.filter (fun r => r.is_active &&
      match flt with | some c => r.chat_id == c | none => true)).filterMap
    (fun r => (db.groups.find? (fun g => g.chat_id == r.chat_id)).map
      (fun g => ⟨r, g.timezone, g.group_name⟩))

/-- `BotDatabase.remove_scheduled_message`:
`UPDATE scheduled_messages SET is_active = 0 WHERE id = ? AND chat_id = ?`,
reporting `cursor.rowcount > 0`.  SQLite counts every row matched by
the `WHERE` clause, whether or not `is_active` actually changes. -/
def remove_scheduled_message (db : BotDB) (mid : Nat) (chat : Int) : BotDB × Bool :=
  let matched := (db.scheduled_messages.filter
    (fun r => r.id == mid && r.chat_id == chat)).length
  let msgs := db.scheduled_messages.map fun r =>
    if r.id == mid && r.chat_id == chat then { r with is_active := false } else r
  ({ db with scheduled_messages := msgs }, matched > 0)

/-- `BotDatabase.get_group_timezone`, defaulting to `"UTC"`. -/
def get_group_timezone (db : BotDB) (chat : Int) : List Char :=
  match db.groups.find? (fun g => g.chat_id == chat) with
  | some g => g.timezone
  | none => "UTC".toList

/-- `BotDatabase.update_group_timezone`. -/
def update_group_timezone (db : BotDB) (chat : Int) (tz : List Char) : BotDB × Bool :=
  let matched := (db.groups.filter (fun g => g.chat_id == chat)).length
  let gs := db.groups.map fun g =>
    if g.chat_id == chat then { g with timezone := tz } else g
  ({ db with groups := gs }, matched > 0)

/-! ### scheduler.py — class MessageScheduler -/

/-- Standard (winter) UTC offsets in minutes for the IANA names used
in this development; names not in the table behave like UTC.
`tzOffsetMinAt` below adds the DST rule where the zone has one. -/
def tzOffsetMin (tz : List Char) : Int :=
  if tz = "Asia/Tokyo".toList then 540
  else if tz = "America/New_York".toList then -300
  else if tz = "Etc/GMT-2".toList then 120
  else 0

/-- 2024-03-10 07:00 UTC, the US spring-forward transition, in seconds
since the epoch 2024-01-01 00:00 UTC used for instants. -/
def nySpringForward : Nat := 5986800

/-- 2024-11-03 06:00 UTC, the US fall-back transition, in seconds
since the epoch 2024-01-01 00:00 UTC used for instants. -/
def nyFallBack : Nat := 26546400

/-- The UTC offset in minutes that `pytz` resolves for a zone at a
given instant (seconds since 2024-01-01 00:00 UTC).  Of the IANA names
used in this development, `America/New_York` observes DST: EDT (-240)
between the 2024 spring-forward and fall-back transitions of the tz
database, EST (-300) otherwise.  `Asia/Tokyo`, `Etc/GMT-2` and `UTC`
are fixed year-round. -/
def tzOffsetMinAt (tz : List Char) (t : Nat) : Int :=
  if tz = "America/New_York".toList then
    if nySpringForward ≤ t && t < nyFallBack then -240 else -300
  else tzOffsetMin tz

/-- Index of the local calendar minute an instant falls in under a
fixed timezone offset: for a zone whose offset is constant over the
instants considered, two instants have the same index exactly when
they share the local `(date, hour, minute)` tuple. -/
def localMinuteIdx (t : Nat) (offMin : Int) : Int :=
  ((t / 60 : Nat) : Int) + offMin

/-- Local `(hour, minute)` of an instant under a fixed offset. -/
def localHM (t : Nat) (offMin : Int) : Nat × Nat :=
  let m := ((localMinuteIdx t offMin).emod 1440).toNat
  (m / 60, m % 60)

/-- Index of the local calendar minute an instant falls in under the
zone's instant-dependent (`pytz`) offset.  The local date, hour and
minute are the positional decomposition of this count, so two instants
share the local `(date, hour, minute)` tuple exactly when they have the
same index — across a fall-back transition two instants an hour apart
do. -/
def localMinuteIdxAt (tz : List Char) (t : Nat) : Int :=
  ((t / 60 : Nat) : Int) + tzOffsetMinAt tz t

/-- Local `(hour, minute)` of an instant under the zone's
instant-dependent (`pytz`) offset, as
`current_time.astimezone(group_timezone)` computes it. -/
def localHMAt (tz : List Char) (t : Nat) : Nat × Nat :=
  let m := ((localMinuteIdxAt tz t).emod 1440).toNat
  (m / 60, m % 60)

/-- `MessageScheduler._should_send_message`: split the stored time on
`:` into exactly two `int`s and compare with the local hour and minute
of the instant converted to the record's (joined) timezone with
`pytz`; any failure yields `False`. -/
def should_send_message (cfg : MsgConfig) (now : Nat) : Bool :=
  match cfg.row.schedule_time.splitOn ':' with
  | [hs, ms] =>
    match pyInt hs, pyInt ms with
    | some h, some m =>
      let hm := localHMAt cfg.timezone now
      ((hm.1 : Int) == h) && ((hm.2 : Int) == m)
    | _, _ => false
  | _ => false

/-- The prefix of the record list that the evaluation loop of
`MessageScheduler._check_and_send_messages` reaches in one tick as the
program actually runs it: `_run_scheduler` executes the tick on
`scheduler_thread` — a plain `threading.Thread` that never runs an
asyncio event loop — so `asyncio.create_task(self._send_scheduled_message(...))`
raises `RuntimeError` (no running event loop) at the first record
whose `_should_send_message` verdict is true, and the tick-level
`except` catches it, ending the loop there.  Records before the first
due one are evaluated but not due; records after it are never
evaluated. -/
def tickEvalPrefix (now : Nat) : List MsgConfig → List MsgConfig
  | [] => []
  | cfg :: rest =>
    if should_send_message cfg now then [cfg]
    else cfg :: tickEvalPrefix now rest

/-- One tick of `MessageScheduler._check_and_send_messages`: read all
active records with their current group timezone and evaluate them
with `_should_send_message` until the loop ends.  The result pairs
the records the loop evaluated with the send tasks actually spawned —
always none, because `asyncio.create_task` raises before creating the
task (see `tickEvalPrefix`), so `_send_scheduled_message` and the
per-record error handling inside it are never reached.  The database
is never modified by a tick. -/
def check_and_send_messages (db : BotDB) (now : Nat) :
    List MsgConfig × List MsgConfig :=
  (tickEvalPrefix now (get_scheduled_messages db none), [])

/-- `MessageScheduler._format_daily_message`: sequential `str.replace`
like `_apply_templates`, except `{year}` is replaced by `str(year)`. -/
def format_daily_message (template : List Char) (t : LocalDT) : List Char :=
  let r1 := replaceAll keyDate (fmtDate t) template
  let r2 := replaceAll keyTime (fmtTime t) r1
  let r3 := replaceAll keyDay (dayName t.date) r2
  let r4 := replaceAll keyMonth (monthName t.date.month) r3
  replaceAll keyYear (natToChars t.date.year) r4

/-- Python's `None` rendered through an f-string. -/
def pyNoneStr : List Char := "None".toList

/-- `msg_config.get('title', 'Event')`: the `title` column is always
present in the row dict, so the default only applies when it is absent
— a `NULL` value comes back as `None` and is rendered as `"None"`. -/
def titleOf (cfg : MsgConfig) : List Char :=
  match cfg.row.title with
  | some t => t
  | none => pyNoneStr

/-- `timedelta.days` of `target_midnight - now` as computed by
`MessageScheduler._format_countdown_message`: the **floor** of the
signed difference, taken here at minute granularity. -/
def countdown_days_remaining (target : PyDate) (now : LocalDT) : Int :=
  Int.fdiv (dateSub target now.date * 1440 - ((60 * now.hour + now.minute : Nat) : Int)) 1440

/-- `MessageScheduler._format_countdown_message`: parse the target
date (falling back to a plain countdown line on failure), compute
`days_remaining = (target_midnight - now).days`, and pick one of the
three message shapes. -/
def format_countdown_message (cfg : MsgConfig) (now : LocalDT) : List Char :=
  match parse_date (cfg.row.target_date.getD []) with
  | none => "⏰ Countdown: ".toList ++ titleOf cfg
  | some target =>
    let days := countdown_days_remaining target now
    if days > 0 then
      "🗓️ <b>".toList ++ titleOf cfg ++ "</b>\n\n⏰ <b>".toList ++ intToChars days ++
        " days remaining!</b>\n\nTarget Date: ".toList ++ fmtLongDate target
    else if days = 0 then
      "🎉 <b>".toList ++ titleOf cfg ++
        "</b>\n\n🚀 <b>TODAY IS THE DAY!</b>\n\nThe wait is over! 🎊".toList
    else
      "📅 <b>".toList ++ titleOf cfg ++ "</b>\n\n✅ Event completed ".toList ++
        intToChars (-days) ++ " days ago\n\nDate: ".toList ++ fmtLongDate target

/-- `MessageScheduler.add_daily_message`: validate the time format with
`strptime('%H:%M')` before persisting; on failure nothing reaches the
database. -/
def add_daily_message (db : BotDB) (chat : Int) (time_str message : List Char) :
    BotDB × Bool :=
  if validTimeHHMM time_str then
    (add_scheduled_message db chat "daily".toList time_str message none none, true)
  else (db, false)

/-- `MessageScheduler.add_countdown_message`: validate both the time
and the target date before persisting. -/
def add_countdown_message (db : BotDB) (chat : Int) (time_str target_date title : List Char) :
    BotDB × Bool :=
  if validTimeHHMM time_str && (parse_date target_date).isSome then
    (add_scheduled_message db chat "countdown".toList time_str []
      (some target_date) (some title), true)
  else (db, false)

/-- `MessageScheduler.remove_schedule` forwards to
`BotDatabase.remove_scheduled_message`. -/
def remove_schedule (db : BotDB) (mid : Nat) (chat : Int) : BotDB × Bool :=
  remove_scheduled_message db mid chat

/-! ## Claim C1 — expiry and retirement semantics -/

/-- Claim C1.  For a countdown or repeating schedule the expiry test is
`end_date < local_date` in the record's stored timezone (strictly
after).  An expired schedule sends no regular message and is retired on
the tick that observes expiry: its row is deleted from the store and
its job removed from the active set.  Retirement sends the terminal
notification for `countdown` and nothing for `repeating`.  When not
expired the state is unchanged and the regular message is sent.  The
daily callback never retires anything.  (`localNow tz` is the current
instant localized to timezone `tz`.) -/
theorem claim_C1 (bot : TgBot) (cid rid : Nat) (localNow : List Char → LocalDT)
    (rc rr : ScheduleRecord) (ec er : PyDate)
    (hc : bot.schedules.find?
      (fun x => x.id == cid && x.schedule_type == "countdown".toList) = some rc)
    (hcE : parse_date (rc.end_date_str.getD []) = some ec)
    (hr : bot.schedules.find?
      (fun x => x.id == rid && x.schedule_type == "repeating".toList) = some rr)
    (hrE : parse_date (rr.end_date_str.getD []) = some er) :
    (dateLt ec (localNow rc.timezone).date = true →
      (countdown_callback bot cid localNow).1.schedules
          = bot.schedules.filter (fun x => x.id ≠ cid) ∧
      (countdown_callback bot cid localNow).1.active_jobs
          = bot.active_jobs.filter (fun p => p.1 ≠ cid) ∧
      (countdown_callback bot cid localNow).2
          = [(rc.chat_id, "Countdown for ".toList ++ rc.message ++ " has ended.".toList)]) ∧
    (dateLt ec (localNow rc.timezone).date = false →
      (countdown_callback bot cid localNow).1 = bot ∧
      (countdown_callback bot cid localNow).2
        = [(rc.chat_id,
            intToChars (dateSub ec (localNow rc.timezone).date) ++ " day".toList ++
              (if dateSub ec (localNow rc.timezone).date ≠ 1 then "s".toList else []) ++
              " remaining until ".toList ++ rc.message ++ "!".toList)]) ∧
    (dateLt er (localNow rr.timezone).date = true →
      (repeating_callback bot rid localNow).1.schedules
          = bot.schedules.filter (fun x => x.id ≠ rid) ∧
      (repeating_callback bot rid localNow).1.active_jobs
          = bot.active_jobs.filter (fun p => p.1 ≠ rid) ∧
      (repeating_callback bot rid localNow).2 = []) ∧
    (dateLt er (localNow rr.timezone).date = false →
      (repeating_callback bot rid localNow).1 = bot ∧
      (repeating_callback bot rid localNow).2
        = [(rr.chat_id, apply_templates rr.message (localNow rr.timezone))]) ∧
    (∀ sid, (daily_callback bot sid localNow).1 = bot) := by
  refine ⟨?_, ?_, ?_, ?_, ?_⟩
  · intro hexp
    unfold countdown_callback
    rw [hc]; dsimp only
    rw [hcE]; dsimp only
    simp [hexp, cancel_schedule]
  · intro hexp
    unfold countdown_callback
    rw [hc]; dsimp only
    rw [hcE]; dsimp only
    simp [hexp]
  · intro hexp
    unfold repeating_callback
    rw [hr]; dsimp only
    rw [hrE]; dsimp only
    simp [hexp, cancel_schedule]
  · intro hexp
    unfold repeating_callback
    rw [hr]; dsimp only
    rw [hrE]; dsimp only
    simp [hexp]
  · intro sid
    unfold daily_callback
    cases hfind : bot.schedules.find?
        (fun x => x.id == sid && x.schedule_type == "daily".toList) with
    | none => rfl
    | some r => rfl

/-- Concrete countdown record used by the C1 witness. -/
def c1rc : ScheduleRecord :=
  ⟨1, 5, "countdown".toList, "10:00".toList, some "2024-12-31".toList,
   "New Year".toList, "UTC".toList⟩

/-- Concrete repeating record used by the C1 witness. -/
def c1rr : ScheduleRecord :=
  ⟨2, 5, "repeating".toList, "09:00".toList, some "2024-12-31".toList,
   "Hello".toList, "UTC".toList⟩

/-- Concrete bot state used by the C1 witness. -/
def c1bot : TgBot :=
  ⟨[c1rc, c1rr], [],
   [(1, ⟨10, 0, "UTC".toList, "countdown".toList⟩),
    (2, ⟨9, 0, "UTC".toList, "repeating".toList⟩)]⟩

/-- Local clock used by the C1 witness: 2025-01-01, one day past the
end date of both records. -/
def c1now : List Char → LocalDT := fun _ => ⟨⟨2025, 1, 1⟩, 10, 0⟩

/-- Witness for C1 at a concrete expired state. -/
theorem claim_C1_witness :
    dateLt ⟨2024, 12, 31⟩ (c1now c1rc.timezone).date = true ∧
    (countdown_callback c1bot 1 c1now).1.schedules
        = c1bot.schedules.filter (fun x => x.id ≠ 1) ∧
    (countdown_callback c1bot 1 c1now).2
        = [(c1rc.chat_id, "Countdown for ".toList ++ c1rc.message ++ " has ended.".toList)] ∧
    (repeating_callback c1bot 2 c1now).2 = [] := by
  have h := claim_C1 c1bot 1 2 c1now c1rc c1rr ⟨2024, 12, 31⟩ ⟨2024, 12, 31⟩
    (by decide) (by decide) (by decide) (by decide)
  exact ⟨by decide, (h.1 (by decide)).1, (h.1 (by decide)).2.2,
    (h.2.2.1 (by decide)).2.2⟩

/-! ## Claim C5 — removing a non-existent id / removing twice -/

/-- Database used by the C5 counterexample: one active row
(id 1, chat 5). -/
def c5db : BotDB :=
  ⟨[⟨5, "G".toList, "UTC".toList⟩],
   [⟨1, 5, "daily".toList, "09:00".toList, "hi".toList, none, none, true⟩]⟩

/-- Counterexample to C5 as stated: in
`BotDatabase.remove_scheduled_message`, removing the same id twice
reports success **both** times — the soft-deleted row still matches
the `UPDATE`, so the second call does not report not-found. -/
theorem claim_C5_cex :
    (remove_scheduled_message c5db 1 5).2 = true ∧
    (remove_scheduled_message (remove_scheduled_message c5db 1 5).1 1 5).2 = true := by
  decide

/-- Auxiliary: a map that changes nothing it touches. -/
theorem map_ite_id {α : Type} (l : List α) (p : α → Bool) (f : α → α)
    (hf : ∀ a ∈ l, p a = true → f a = a) :
    l.map (fun a => if p a then f a else a) = l := by
  induction l with
  | nil => rfl
  | cons x xs ih =>
    simp only [List.map_cons]
    rw [ih fun a ha => hf a (List.mem_cons_of_mem x ha)]
    by_cases hx : p x = true
    · rw [if_pos hx, hf x (List.mem_cons_self x xs) hx]
    · rw [if_neg hx]

/-- Auxiliary: a list with no element satisfying `p` filters to `[]`. -/
theorem filter_eq_nil_of_none {α : Type} (l : List α) (p : α → Bool)
    (h : ∀ a ∈ l, ¬ p a = true) : l.filter p = [] := by
  simp only [List.filter_eq_nil_iff]
  exact h

/-- Claim C5, amended.  A remove whose `(id, chat)` matches no row
reports not-found and leaves the store unchanged, in both
implementations (in the telegram `removeschedule` the match is by id
only).  Removing twice never crashes and leaves the store unchanged
after the second call; the telegram implementation reports not-found
on the second call, but `remove_scheduled_message` reports
**success** again, because the deactivated row still matches the
`UPDATE`. -/
theorem claim_C5_amended (db : BotDB) (mid : Nat) (chat : Int)
    (bot : TgBot) (chatA chatB : Int) (sid : Nat)
    (habsent : ∀ r ∈ db.scheduled_messages, ¬(r.id = mid ∧ r.chat_id = chat))
    (hbabsent : ∀ r ∈ bot.schedules, r.id ≠ sid) :
    remove_scheduled_message db mid chat = (db, false) ∧
    (∀ db' : BotDB, ∀ mid' : Nat, ∀ chat' : Int, ∀ r ∈ db'.scheduled_messages,
      r.id = mid' → r.chat_id = chat' →
      (remove_scheduled_message (remove_scheduled_message db' mid' chat').1 mid' chat').1
          = (remove_scheduled_message db' mid' chat').1 ∧
      (remove_scheduled_message (remove_scheduled_message db' mid' chat').1 mid' chat').2
          = true) ∧
    ((removeschedule bot chatA sid).2 = RemoveResult.notFound ∧
      (removeschedule bot chatA sid).1.schedules = bot.schedules) ∧
    (∀ bot' : TgBot, ∀ sid' : Nat,
      (removeschedule (removeschedule bot' chatA sid').1 chatB sid').2
          = RemoveResult.notFound) := by
  refine ⟨?_, ?_, ?_, ?_⟩
  · have hflt : db.scheduled_messages.filter
        (fun r => r.id == mid && r.chat_id == chat) = [] := by
      refine filter_eq_nil_of_none _ _ fun a ha hpa => habsent a ha ?_
      simpa using hpa
    have hmap : db.scheduled_messages.map
        (fun r => if r.id == mid && r.chat_id == chat
          then { r with is_active := false } else r) = db.scheduled_messages :=
      map_ite_id _ _ _ fun a ha hpa =>
        absurd (show a.id = mid ∧ a.chat_id = chat by simpa using hpa) (habsent a ha)
    unfold remove_scheduled_message
    dsimp only
    rw [hflt, hmap]
    rfl
  · intro db' mid' chat' r hr hid hchat
    have hpr : (r.id == mid' && r.chat_id == chat') = true := by simp [hid, hchat]
    set d1 : BotDB := (remove_scheduled_message db' mid' chat').1 with hd1
    have hd1m : d1.scheduled_messages = db'.scheduled_messages.map
        (fun x => if x.id == mid' && x.chat_id == chat'
          then { x with is_active := false } else x) := by
      rw [hd1]
      unfold remove_scheduled_message
      dsimp only
    have hmem1 : ({ r with is_active := false } : MsgRow) ∈ d1.scheduled_messages := by
      rw [hd1m]
      exact List.mem_map.mpr ⟨r, hr, by rw [if_pos hpr]⟩
    have hpos : 0 < (d1.scheduled_messages.filter
        (fun x => x.id == mid' && x.chat_id == chat')).length :=
      List.length_pos.mpr (List.ne_nil_of_mem (List.mem_filter.mpr ⟨hmem1, hpr⟩))
    have hmap2 : d1.scheduled_messages.map
        (fun x => if x.id == mid' && x.chat_id == chat'
          then { x with is_active := false } else x) = d1.scheduled_messages := by
      refine map_ite_id _ _ _ fun a ha hpa => ?_
      rw [hd1m] at ha
      obtain ⟨b, _, hb⟩ := List.mem_map.mp ha
      by_cases hpb : (b.id == mid' && b.chat_id == chat') = true
      · rw [if_pos hpb] at hb
        subst hb
        rfl
      · rw [if_neg hpb] at hb
        subst hb
        exact absurd hpa hpb
    constructor
    · unfold remove_scheduled_message
      dsimp only
      rw [hmap2]
    · unfold remove_scheduled_message
      dsimp only
      simpa using hpos
  · have hflt0 : bot.schedules.filter (fun r => r.id == sid) = [] := by
      refine filter_eq_nil_of_none _ _ fun a ha hpa => hbabsent a ha ?_
      simpa using hpa
    have hfull : bot.schedules.filter (fun r => r.id ≠ sid) = bot.schedules := by
      rw [List.filter_eq_self]
      intro a ha
      simpa using hbabsent a ha
    constructor
    · unfold removeschedule
      dsimp only
      rw [hflt0]
      rfl
    · unfold removeschedule
      dsimp only
      rw [hfull]
  · intro bot' sid'
    have hnil : ((bot'.schedules.filter (fun r => r.id ≠ sid')).filter
        (fun r => r.id == sid')) = [] := by
      refine filter_eq_nil_of_none _ _ fun a ha hpa => ?_
      have hmem := List.of_mem_filter ha
      simp at hmem hpa
      exact hmem hpa
    unfold removeschedule
    dsimp only
    rw [hnil]
    rfl

/-- Bot state for the C5 witness: one record with id 1. -/
def c5bot : TgBot :=
  ⟨[⟨1, 100, "daily".toList, "09:00".toList, none, "m".toList, "UTC".toList⟩], [], []⟩

/-- Witness for C5 (amended) at concrete absent ids. -/
theorem claim_C5_witness :
    (∀ r ∈ c5db.scheduled_messages, ¬(r.id = 9 ∧ r.chat_id = 5)) ∧
    remove_scheduled_message c5db 9 5 = (c5db, false) ∧
    (removeschedule c5bot 5 9).2 = RemoveResult.notFound := by
  have h := claim_C5_amended c5db 9 5 c5bot 5 6 9 (by decide) (by decide)
  exact ⟨by decide, h.1, h.2.2.1.1⟩

/-! ## Claim C10 — removal is (not always) scoped to the owner chat -/

/-- Bot for the C10 counterexample: chat 100 owns schedule 1. -/
def c10bot : TgBot :=
  ⟨[⟨1, 100, "daily".toList, "09:00".toList, none, "hello".toList, "UTC".toList⟩], [], []⟩

/-- Counterexample to C10 as stated: a `/removeschedule 1` issued from
chat 200 deletes chat 100's schedule in `SchedulerBot.removeschedule`
(the `DELETE` has no `chat_id` condition) and even reports success. -/
theorem claim_C10_cex :
    (removeschedule c10bot 200 1).1.schedules = [] ∧
    (removeschedule c10bot 200 1).2 = RemoveResult.removed := by
  decide

/-- Claim C10, amended.  In `BotDatabase.remove_scheduled_message`
removal is scoped by `chat_id`, so every row belonging to a different
chat is left in the store unchanged (and the `groups` table is
untouched).  In `SchedulerBot.removeschedule` the deletion is by id
only: the resulting table is the id-filtered table regardless of the
requesting chat, so a remove issued from one chat deletes another
chat's schedule with that id. -/
theorem claim_C10_amended (db : BotDB) (mid : Nat) (chat : Int)
    (bot : TgBot) (reqChat : Int) (sid : Nat) :
    (∀ r ∈ db.scheduled_messages, r.chat_id ≠ chat →
      r ∈ (remove_scheduled_message db mid chat).1.scheduled_messages) ∧
    (remove_scheduled_message db mid chat).1.groups = db.groups ∧
    (removeschedule bot reqChat sid).1.schedules
        = bot.schedules.filter (fun r => r.id ≠ sid) := by
  refine ⟨?_, rfl, rfl⟩
  intro r hr hne
  simp only [remove_scheduled_message]
  refine List.mem_map.mpr ⟨r, hr, ?_⟩
  rw [if_neg]
  simp [hne]

/-- Database for the C10 witness: rows owned by chats 5 and 7. -/
def c10db : BotDB :=
  ⟨[⟨5, "A".toList, "UTC".toList⟩, ⟨7, "B".toList, "UTC".toList⟩],
   [⟨1, 5, "daily".toList, "09:00".toList, "x".toList, none, none, true⟩,
    ⟨2, 7, "daily".toList, "10:00".toList, "y".toList, none, none, true⟩]⟩

/-- Witness for C10 (amended): removing id 2 from chat 5 leaves chat
7's row untouched in the database implementation. -/
theorem claim_C10_witness :
    (⟨2, 7, "daily".toList, "10:00".toList, "y".toList, none, none, true⟩ : MsgRow)
      ∈ (remove_scheduled_message c10db 2 5).1.scheduled_messages := by
  have h := claim_C10_amended c10db 2 5 c10bot 200 1
  exact h.1 _ (by decide) (by decide)

/-! ## Claim C7 — validation happens before persistence -/

/-- Claim C7.  A create operation whose time-of-day (or end-date)
input fails to parse is rejected with a validation failure and leaves
the state completely unchanged, in all four create paths:
`setschedule` and `setcountdown` (telegram implementation, using
`parse_hhmm`/`parse_date`) and `add_daily_message` /
`add_countdown_message` (scheduler implementation, using
`strptime`-style validation). -/
theorem claim_C7 :
    (∀ bot : TgBot, ∀ chat : Int, ∀ ts msg : List Char,
      parse_hhmm ts = none →
      setschedule bot chat ts msg = (bot, CreateResult.invalidInput)) ∧
    (∀ bot : TgBot, ∀ chat : Int, ∀ ts ds title : List Char,
      parse_hhmm ts = none ∨ parse_date ds = none →
      setcountdown bot chat ts ds title = (bot, CreateResult.invalidInput)) ∧
    (∀ db : BotDB, ∀ chat : Int, ∀ ts msg : List Char,
      validTimeHHMM ts = false →
      add_daily_message db chat ts msg = (db, false)) ∧
    (∀ db : BotDB, ∀ chat : Int, ∀ ts ds title : List Char,
      validTimeHHMM ts = false ∨ parse_date ds = none →
      add_countdown_message db chat ts ds title = (db, false)) := by
  refine ⟨?_, ?_, ?_, ?_⟩
  · intro bot chat ts msg h
    unfold setschedule
    rw [h]
  · intro bot chat ts ds title h
    unfold setcountdown
    rcases h with h | h
    · rw [h]
    · rw [h]
      cases parse_hhmm ts <;> rfl
  · intro db chat ts msg h
    unfold add_daily_message
    rw [h]
    rfl
  · intro db chat ts ds title h
    unfold add_countdown_message
    rcases h with h | h
    · rw [h]
      rfl
    · rw [h]
      simp

/-- Witness for C7 at concrete malformed inputs. -/
theorem claim_C7_witness :
    parse_hhmm "25:00".toList = none ∧
    setschedule ⟨[], [], []⟩ 5 "25:00".toList "x".toList
      = (⟨[], [], []⟩, CreateResult.invalidInput) ∧
    parse_date "2024-13-01".toList = none ∧
    add_countdown_message ⟨[], []⟩ 5 "10:00".toList "2024-13-01".toList "t".toList
      = (⟨[], []⟩, false) := by
  refine ⟨by decide, ?_, by decide, ?_⟩
  · exact claim_C7.1 _ _ _ _ (by decide)
  · exact claim_C7.2.2.2 _ _ _ _ _ (Or.inr (by decide))

/-! ## Claim C8 — per-record failure isolation in a tick -/

/-- Database for the C8 failing input: two chats, each with an active
daily schedule at 09:00 UTC, so a tick at 09:00 UTC finds two due
records. -/
def c8db : BotDB :=
  ⟨[⟨7, "G".toList, "UTC".toList⟩, ⟨8, "H".toList, "UTC".toList⟩],
   [⟨1, 7, "daily".toList, "09:00".toList, "a".toList, none, none, true⟩,
    ⟨2, 8, "daily".toList, "09:00".toList, "b".toList, none, none, true⟩]⟩

/-- Claim C8 fails in the code.  At the tick instant 09:00 UTC both
active records of `c8db` are due, so the claim requires both to be
attempted, with neither's error affecting the other.  But the tick
runs on `scheduler_thread`, where `asyncio.create_task` raises
`RuntimeError` at the first due record and the tick-level `except`
ends the loop: the tick evaluates only the first record, never
examines the second, and spawns no send task at all — for any database
and instant the spawned-task component is empty, so the per-record
isolation inside `_send_scheduled_message` is unreachable. -/
theorem claim_C8 :
    ((get_scheduled_messages c8db none).filter
        (fun cfg => should_send_message cfg 32400)).length = 2 ∧
    (check_and_send_messages c8db 32400).1
      = [⟨⟨1, 7, "daily".toList, "09:00".toList, "a".toList, none, none, true⟩,
          "UTC".toList, "G".toList⟩] ∧
    (check_and_send_messages c8db 32400).2 = [] ∧
    (∀ db : BotDB, ∀ now : Nat, (check_and_send_messages db now).2 = []) := by
  exact ⟨by decide, by decide, rfl, fun db now => rfl⟩

/-! ## Claim C2 — countdown days-remaining and the today message -/

/-- The joined record used to evaluate C2: a countdown targeting
2024-12-31 in UTC. -/
def c2cfg : MsgConfig :=
  ⟨⟨1, 5, "countdown".toList, "10:00".toList, [], some "2024-12-31".toList,
    some "New Year".toList, true⟩, "UTC".toList, "G".toList⟩

/-- Claim C2 evaluated at the failing input.  On the end date itself
(local time 2024-12-31 10:00), `_format_countdown_message` computes
`days_remaining = (target_midnight - now).days = -1`, not
`end_date - local_date = 0`, and renders the "Event completed 1 days
ago" message instead of the distinct today message the claim (and the
spec's scenario at `2024-12-31T10:00Z`) requires. -/
theorem claim_C2 :
    countdown_days_remaining ⟨2024, 12, 31⟩ ⟨⟨2024, 12, 31⟩, 10, 0⟩ = -1 ∧
    dateSub ⟨2024, 12, 31⟩ ⟨2024, 12, 31⟩ = 0 ∧
    format_countdown_message c2cfg ⟨⟨2024, 12, 31⟩, 10, 0⟩
      = ("📅 <b>New Year</b>\n\n✅ Event completed 1 days ago" ++
          "\n\nDate: December 31, 2024").toList := by
  refine ⟨by decide, by decide, by decide⟩

/-! ## Claim C3 — due-now verdict and once-per-minute firing -/

/-- Sixty seconds of wall clock always advances the local minute
index, for any fixed offset. -/
theorem localMinuteIdx_lt (off : Int) {a b : Nat} (h : a + 60 ≤ b) :
    localMinuteIdx a off < localMinuteIdx b off := by
  unfold localMinuteIdx
  have hdiv : a / 60 < b / 60 := by omega
  omega

/-- A list whose minute indices are strictly increasing keeps at most
one element of any given minute index. -/
theorem filter_minuteIdx_le_one (off : Int) (M : Int) :
    ∀ l : List Nat,
      l.Pairwise (fun a b => localMinuteIdx a off < localMinuteIdx b off) →
      (l.filter (fun t => localMinuteIdx t off == M)).length ≤ 1 := by
  intro l
  induction l with
  | nil => intro _; simp
  | cons x xs ih =>
    intro hp
    rw [List.filter_cons]
    by_cases hx : (localMinuteIdx x off == M) = true
    · rw [if_pos hx]
      have hxs : xs.filter (fun t => localMinuteIdx t off == M) = [] := by
        refine filter_eq_nil_of_none _ _ fun a ha hpa => ?_
        have h1 : localMinuteIdx x off < localMinuteIdx a off :=
          (List.pairwise_cons.mp hp).1 a ha
        have h2 : localMinuteIdx x off = M := by simpa using hx
        have h3 : localMinuteIdx a off = M := by simpa using hpa
        omega
      rw [hxs]
      simp
    · rw [if_neg hx]
      exact ih (List.pairwise_cons.mp hp).2

/-- Filtering with a conjunction never keeps more elements than
filtering with one conjunct. -/
theorem length_filter_and_le {α : Type} (p q : α → Bool) :
    ∀ l : List α,
      (l.filter (fun t => p t && q t)).length ≤ (l.filter q).length := by
  intro l
  induction l with
  | nil => simp
  | cons x xs ih =>
    rw [List.filter_cons, List.filter_cons]
    by_cases hb : q x = true
    · rw [if_pos hb]
      by_cases ha : (p x && q x) = true
      · rw [if_pos ha]
        simpa using ih
      · rw [if_neg ha]
        simp only [List.length_cons]
        omega
    · have ha : (p x && q x) = false := by
        cases hc : p x <;> simp_all
      rw [if_neg hb, if_neg (by simp [ha])]
      exact ih

/-- The record used for the C3 counterexample: a daily schedule at
`01:30` for a chat whose joined timezone is `America/New_York`. -/
def c3cfg : MsgConfig :=
  ⟨⟨3, 9, "daily".toList, "01:30".toList, "hi".toList, none, none, true⟩,
   "America/New_York".toList, "G".toList⟩

/-- Counterexample to Claim C3 as stated.  On 2024-11-03 the
`America/New_York` fall-back repeats the local minute 01:30: the
instants 2024-11-03 05:30 UTC (01:30 EDT) and 06:30 UTC (01:30 EST)
are 3600 seconds apart — so both appear among ticks spaced at least 60
seconds apart — yet share the local `(date, hour, minute)` tuple
`(2024-11-03, 01, 30)`, `_should_send_message` is true at both, and
the dispatch loop fires the schedule twice for that single tuple,
violating the at-most-once clause. -/
theorem claim_C3_cex :
    List.Chain' (fun a b => a + 60 ≤ b) [26544600, 26548200] ∧
    localMinuteIdxAt "America/New_York".toList 26544600
      = localMinuteIdxAt "America/New_York".toList 26548200 ∧
    localHMAt "America/New_York".toList 26544600 = (1, 30) ∧
    should_send_message c3cfg 26544600 = true ∧
    should_send_message c3cfg 26548200 = true ∧
    ([26544600, 26548200].filter (fun t => should_send_message c3cfg t &&
        (localMinuteIdxAt c3cfg.timezone t == 442170))).length = 2 := by
  refine ⟨?_, by decide, by decide, by decide, by decide, by decide⟩
  simp [List.chain'_cons]

/-- Claim C3, amended.  Given a schedule-time string that splits into
two parseable parts `h:m`, `_should_send_message` is true at an
instant iff the `(hour, minute)` of the instant converted to the
record's (joined) timezone equals `(h, m)`; and along any execution of
the dispatch loop — whose ticks, produced by
`schedule.every().minute`, are at least 60 seconds apart — the
schedule fires at most once per local `(date, hour, minute)` tuple
**provided** the zone's UTC offset is constant across the ticks (as it
is for the DST-free zones, and for any tick range that does not cross
a DST transition).  Across a fall-back transition the guarantee fails:
the same local minute recurs an hour later and the schedule fires
twice (`claim_C3_cex`). -/
theorem claim_C3_amended (cfg : MsgConfig) (hs ms : List Char) (h m : Int)
    (hsplit : cfg.row.schedule_time.splitOn ':' = [hs, ms])
    (hh : pyInt hs = some h) (hm : pyInt ms = some m) :
    (∀ t : Nat, should_send_message cfg t = true ↔
      ((localHMAt cfg.timezone t).1 : Int) = h ∧
      ((localHMAt cfg.timezone t).2 : Int) = m) ∧
    (∀ ticks : List Nat, List.Chain' (fun a b => a + 60 ≤ b) ticks →
      ∀ off : Int, (∀ t ∈ ticks, tzOffsetMinAt cfg.timezone t = off) →
      ∀ M : Int,
        (ticks.filter (fun t => should_send_message cfg t &&
            (localMinuteIdxAt cfg.timezone t == M))).length ≤ 1) := by
  constructor
  · intro t
    unfold should_send_message
    rw [hsplit]
    dsimp only
    rw [hh, hm]
    dsimp only
    simp
  · intro ticks hchain off hoff M
    have hpair : ticks.Pairwise (fun a b =>
        localMinuteIdx a off < localMinuteIdx b off) := by
      haveI : IsTrans Nat (fun a b => a + 60 ≤ b) :=
        ⟨fun a b c h1 h2 => by
          have h1' : a + 60 ≤ b := h1
          have h2' : b + 60 ≤ c := h2
          omega⟩
      exact (List.chain'_iff_pairwise.mp hchain).imp (localMinuteIdx_lt _)
    have hcongr : ticks.filter (fun t => should_send_message cfg t &&
          (localMinuteIdxAt cfg.timezone t == M))
        = ticks.filter (fun t => should_send_message cfg t &&
          (localMinuteIdx t off == M)) := by
      refine List.filter_congr ?_
      intro t ht
      have heq : localMinuteIdxAt cfg.timezone t = localMinuteIdx t off := by
        unfold localMinuteIdxAt localMinuteIdx
        rw [hoff t ht]
      rw [heq]
    rw [hcongr]
    exact le_trans
      (length_filter_and_le (fun t => should_send_message cfg t)
        (fun t => localMinuteIdx t off == M) ticks)
      (filter_minuteIdx_le_one _ M ticks hpair)

/-- Witness for the amended C3 at the concrete record `c2cfg` (time
`10:00`, UTC — a zone whose offset is constant) and three ticks spaced
one minute apart. -/
theorem claim_C3_witness :
    ("10:00".toList.splitOn ':' = ["10".toList, "00".toList]) ∧
    should_send_message c2cfg 36000 = true ∧
    (([36000, 36060, 36120].filter (fun t => should_send_message c2cfg t &&
        (localMinuteIdxAt c2cfg.timezone t == 600))).length ≤ 1) := by
  have h := claim_C3_amended c2cfg "10".toList "00".toList 10 0 (by decide) (by decide) (by decide)
  refine ⟨by decide, (h.1 36000).mpr (by decide), ?_⟩
  exact h.2 [36000, 36060, 36120] (by simp [List.chain'_cons]) 0 (by decide) 600

/-! ## Claim C4 — which timezone governs an existing schedule -/

/-- Database for the C4 counterexample: chat 7 in UTC with a daily
schedule at 10:00. -/
def c4db : BotDB :=
  ⟨[⟨7, "G".toList, "UTC".toList⟩],
   [⟨1, 7, "daily".toList, "10:00".toList, "hi".toList, none, none, true⟩]⟩

/-- Counterexample to C4 as stated: in the scheduler implementation
the due-time verdict of an already-created schedule changes when the
group's timezone setting is later updated, because
`get_scheduled_messages` joins the group's **current** timezone.  At
10:00 UTC the schedule is due before the update and no longer due
after `update_group_timezone` to Asia/Tokyo. -/
theorem claim_C4_cex :
    ((get_scheduled_messages c4db none).map (fun c => should_send_message c 36000))
        = [true] ∧
    ((get_scheduled_messages (update_group_timezone c4db 7 "Asia/Tokyo".toList).1
        none).map (fun c => should_send_message c 36000)) = [false] := by
  decide

/-- `find?` commutes with a map that preserves the predicate. -/
theorem find?_map_inv {α : Type} (u : α → α) (p : α → Bool)
    (hinv : ∀ a, p (u a) = p a) :
    ∀ l : List α, (l.map u).find? p = (l.find? p).map u := by
  intro l
  induction l with
  | nil => rfl
  | cons x xs ih =>
    rw [List.map_cons]
    by_cases hx : p x = true
    · rw [List.find?_cons_of_pos _ (by rw [hinv]; exact hx),
        List.find?_cons_of_pos _ hx]
      rfl
    · rw [List.find?_cons_of_neg _ (by rw [hinv]; simpa using hx),
        List.find?_cons_of_neg _ (by simpa using hx)]
      exact ih

/-- Pointwise-equal functions give equal `filterMap`s. -/
theorem filterMap_congr_fun {α β : Type} (f g : α → Option β)
    (h : ∀ a, f a = g a) : ∀ l : List α, l.filterMap f = l.filterMap g := by
  intro l
  induction l with
  | nil => rfl
  | cons x xs ih => rw [List.filterMap_cons, List.filterMap_cons, h x, ih]

/-- `schedule_job` never touches the schedules table. -/
theorem schedule_job_schedules (b : TgBot) (r : ScheduleRecord) :
    (schedule_job b r).schedules = b.schedules := by
  unfold schedule_job
  cases scheduleJob r <;> rfl

/-- The jobs rebuilt by a restore fold depend only on the rows and the
starting jobs, not on the rest of the state. -/
theorem restore_fold_jobs : ∀ rows : List ScheduleRecord, ∀ b1 b2 : TgBot,
    b1.active_jobs = b2.active_jobs →
    (rows.foldl schedule_job b1).active_jobs
      = (rows.foldl schedule_job b2).active_jobs := by
  intro rows
  induction rows with
  | nil => intro b1 b2 h; exact h
  | cons r rest ih =>
    intro b1 b2 h
    apply ih
    unfold schedule_job
    cases scheduleJob r
    · exact h
    · simp only [jobsInsert, h]

/-- Claim C4, amended.  In the telegram implementation the record
created by `setschedule` stores the owning chat's timezone as
resolved at creation time, and the due-time jobs rebuilt by
`_restore_schedules` depend only on the persisted rows — not on the
`chat_timezones` table — so a later `/settimezone` does not move an
existing schedule's firing time; its **rendering**, however, re-reads
the chat's current timezone in `_daily_callback`.  In the
scheduler/database implementation, `get_scheduled_messages` joins the
group's current timezone, so a timezone update changes both due-time
evaluation and rendering of every already-created schedule of that
chat. -/
theorem claim_C4_amended (bot : TgBot) (chat : Int) (ts msg : List Char)
    (hm : Nat × Nat) (hp : parse_hhmm ts = some hm) :
    ((setschedule bot chat ts msg).1.schedules
        = bot.schedules ++ [⟨freshId (bot.schedules.map (·.id)), chat,
            "daily".toList, ts, none, msg, get_chat_timezone bot chat⟩]) ∧
    (∀ rows : List ScheduleRecord, ∀ tzs1 tzs2 : List (Int × List Char),
      (restore_schedules ⟨rows, tzs1, []⟩).active_jobs
        = (restore_schedules ⟨rows, tzs2, []⟩).active_jobs) ∧
    (∀ (sid : Nat) (r : ScheduleRecord) (localNow : List Char → LocalDT),
      bot.schedules.find? (fun x => x.id == sid && x.schedule_type == "daily".toList)
          = some r →
      (daily_callback bot sid localNow).2
        = [(r.chat_id, apply_templates r.message
            (localNow (get_chat_timezone bot r.chat_id)))]) ∧
    (∀ db : BotDB, ∀ tz : List Char,
      get_scheduled_messages (update_group_timezone db chat tz).1 none
        = (get_scheduled_messages db none).map
            (fun cfg => if cfg.row.chat_id == chat
              then { cfg with timezone := tz } else cfg)) := by
  refine ⟨?_, ?_, ?_, ?_⟩
  · unfold setschedule
    rw [hp]
    dsimp only
    rw [schedule_job_schedules]
  · intro rows tzs1 tzs2
    unfold restore_schedules
    exact restore_fold_jobs rows _ _ rfl
  · intro sid r localNow hfind
    unfold daily_callback
    rw [hfind]
  · intro db tz
    unfold get_scheduled_messages update_group_timezone
    dsimp only
    rw [List.map_filterMap]
    refine filterMap_congr_fun _ _ ?_ _
    intro r
    have hinv : ∀ g : GroupRow,
        (((if g.chat_id == chat then { g with timezone := tz } else g) : GroupRow).chat_id
          == r.chat_id) = (g.chat_id == r.chat_id) := by
      intro g
      by_cases hc : (g.chat_id == chat) = true
      · rw [if_pos hc]
      · rw [if_neg hc]
    rw [find?_map_inv _ _ hinv db.groups]
    cases hfind : db.groups.find? (fun g => g.chat_id == r.chat_id) with
    | none => rfl
    | some g =>
      have hg : (g.chat_id == r.chat_id) = true := by
        have := List.find?_some hfind
        simpa using this
      have hg' : g.chat_id = r.chat_id := by simpa using hg
      dsimp only [Option.map]
      by_cases hc : (g.chat_id == chat) = true
      · have hrc : (r.chat_id == chat) = true := by rw [← hg']; exact hc
        rw [if_pos hc, if_pos hrc]
      · have hrc : ¬(r.chat_id == chat) = true := by rw [← hg']; exact hc
        rw [if_neg hc, if_neg hrc]

/-- Witness for C4 (amended) at a concrete database and update. -/
theorem claim_C4_witness :
    parse_hhmm "10:00".toList = some (10, 0) ∧
    get_scheduled_messages (update_group_timezone c4db 7 "Asia/Tokyo".toList).1 none
      = (get_scheduled_messages c4db none).map
          (fun cfg => if cfg.row.chat_id == 7
            then { cfg with timezone := "Asia/Tokyo".toList } else cfg) := by
  have h := claim_C4_amended (TgBot.mk [] [] []) 7 "10:00".toList "m".toList (10, 0)
    (by decide)
  exact ⟨by decide, h.2.2.2 c4db "Asia/Tokyo".toList⟩

/-! ## Claim C9 — create / restore round trip -/

/-- A restore fold does not change the schedules table. -/
theorem restore_fold_schedules : ∀ rows : List ScheduleRecord, ∀ b : TgBot,
    (rows.foldl schedule_job b).schedules = b.schedules := by
  intro rows
  induction rows with
  | nil => intro b; rfl
  | cons r rest ih =>
    intro b
    rw [List.foldl_cons, ih, schedule_job_schedules]

/-- `find?` skips a prefix with no match. -/
theorem find?_append_of_none {α : Type} (p : α → Bool) :
    ∀ l1 l2 : List α, l1.find? p = none → (l1 ++ l2).find? p = l2.find? p := by
  intro l1
  induction l1 with
  | nil => intro l2 _; rfl
  | cons x xs ih =>
    intro l2 h
    have hx : p x = false := by
      cases hpx : p x
      · rfl
      · rw [List.find?_cons_of_pos _ hpx] at h
        exact absurd h (by simp)
    rw [List.cons_append, List.find?_cons_of_neg _ (by simp [hx])]
    apply ih
    rw [List.find?_cons_of_neg _ (by simp [hx])] at h
    exact h

/-- Looking up the key just inserted by `jobsInsert` returns exactly
the inserted job. -/
theorem jobsInsert_find (jobs : List (Nat × JobSpec)) (sid : Nat) (spec : JobSpec) :
    (jobsInsert jobs sid spec).find? (fun q => q.1 == sid) = some (sid, spec) := by
  unfold jobsInsert
  rw [find?_append_of_none]
  · rw [List.find?_cons_of_pos _ (by simp)]
  · rw [List.find?_eq_none]
    intro q hq
    have hne := List.of_mem_filter hq
    simp at hne ⊢
    exact hne

/-- Claim C9.  `setschedule` persists exactly one new row carrying the
given fields (with the timezone resolved now) and registers a daily
job at the parsed `(hour, minute)` in that timezone; a restart
simulated by `_restore_schedules` over the persisted rows alone (with
an arbitrary `chat_timezones` table and an empty job set) reproduces
that row with identical fields and registers the **same** job — the
same time of day and the same timezone — so the restored schedule's
due-now behavior is identical at every instant. -/
theorem claim_C9 (bot : TgBot) (chat : Int) (ts msg : List Char) (h m : Nat)
    (hp : parse_hhmm ts = some (h, m)) :
    (setschedule bot chat ts msg).1.schedules = bot.schedules ++
        [⟨freshId (bot.schedules.map (·.id)), chat, "daily".toList, ts, none, msg,
          get_chat_timezone bot chat⟩] ∧
    (setschedule bot chat ts msg).2
      = CreateResult.ok (freshId (bot.schedules.map (·.id))) ∧
    (setschedule bot chat ts msg).1.active_jobs.find?
        (fun q => q.1 == freshId (bot.schedules.map (·.id)))
      = some (freshId (bot.schedules.map (·.id)),
          ⟨h, m, get_chat_timezone bot chat, "daily".toList⟩) ∧
    (∀ tzs : List (Int × List Char),
      (⟨freshId (bot.schedules.map (·.id)), chat, "daily".toList, ts, none, msg,
          get_chat_timezone bot chat⟩ : ScheduleRecord)
        ∈ (restore_schedules
            ⟨(setschedule bot chat ts msg).1.schedules, tzs, []⟩).schedules ∧
      (restore_schedules
          ⟨(setschedule bot chat ts msg).1.schedules, tzs, []⟩).active_jobs.find?
          (fun q => q.1 == freshId (bot.schedules.map (·.id)))
        = some (freshId (bot.schedules.map (·.id)),
            ⟨h, m, get_chat_timezone bot chat, "daily".toList⟩)) := by
  have hjob : scheduleJob ⟨freshId (bot.schedules.map (·.id)), chat, "daily".toList,
      ts, none, msg, get_chat_timezone bot chat⟩
      = some ⟨h, m, get_chat_timezone bot chat, "daily".toList⟩ := by
    unfold scheduleJob
    dsimp only
    rw [hp]
    dsimp only
    rw [if_pos (Or.inl rfl)]
  have hsched : (setschedule bot chat ts msg).1.schedules = bot.schedules ++
      [⟨freshId (bot.schedules.map (·.id)), chat, "daily".toList, ts, none, msg,
        get_chat_timezone bot chat⟩] := by
    unfold setschedule
    rw [hp]
    dsimp only
    rw [schedule_job_schedules]
  refine ⟨hsched, ?_, ?_, ?_⟩
  · unfold setschedule
    rw [hp]
  · unfold setschedule
    rw [hp]
    dsimp only
    unfold schedule_job
    rw [hjob]
    dsimp only
    exact jobsInsert_find _ _ _
  · intro tzs
    constructor
    · unfold restore_schedules
      rw [restore_fold_schedules]
      dsimp only
      rw [hsched]
      exact List.mem_append.mpr (Or.inr (List.mem_singleton.mpr rfl))
    · unfold restore_schedules
      dsimp only
      rw [hsched, List.foldl_append, List.foldl_cons, List.foldl_nil]
      unfold schedule_job
      rw [hjob]
      dsimp only
      exact jobsInsert_find _ _ _

/-- Witness for C9 at a concrete fresh bot. -/
theorem claim_C9_witness :
    parse_hhmm "09:00".toList = some (9, 0) ∧
    (setschedule (TgBot.mk [] [] []) 5 "09:00".toList "hello".toList).1.schedules
      = [⟨1, 5, "daily".toList, "09:00".toList, none, "hello".toList, "UTC".toList⟩] ∧
    (restore_schedules
        ⟨(setschedule (TgBot.mk [] [] []) 5 "09:00".toList "hello".toList).1.schedules,
          [], []⟩).active_jobs.find? (fun q => q.1 == 1)
      = some (1, ⟨9, 0, "UTC".toList, "daily".toList⟩) := by
  have hw := claim_C9 (TgBot.mk [] [] []) 5 "09:00".toList "hello".toList 9 0 (by decide)
  refine ⟨by decide, ?_, ?_⟩
  · exact hw.1
  · exact (hw.2.2.2 []).2

/-! ## Claim C6 — template rendering

The source renders templates by five sequential `str.replace` calls.
The specification prescribes a single left-to-right pass over the
known keys that never re-scans inserted text.  We define that single
pass (`onePass`, the refinement target, named after the spec's words)
and prove the source's sequential renderers equal to it. -/

/-- A key/value substitution list, in processing order. -/
abbrev KVs := List (List Char × List Char)

/-- First key of `kvs` that is a prefix of `s`. -/
def findKey (kvs : KVs) (s : List Char) : Option (List Char × List Char) :=
  kvs.find? (fun kv => kv.1.isPrefixOf s)

/-- Fuelled helper for `onePass` (fuel only makes it structural). -/
def onePassAux (kvs : KVs) : Nat → List Char → List Char
  | 0, s => s
  | _ + 1, [] => []
  | fuel + 1, c :: s =>
    match findKey kvs (c :: s) with
    | some kv =>
      if kv.1 = [] then c :: onePassAux kvs fuel s
      else kv.2 ++ onePassAux kvs fuel ((c :: s).drop kv.1.length)
    | none => c :: onePassAux kvs fuel s

/-- The single left-to-right substitution pass the specification
prescribes: at each position, substitute the first matching key and
continue after it, never re-matching inserted text. -/
def onePass (kvs : KVs) (s : List Char) : List Char :=
  onePassAux kvs (s.length + 1) s

/-- The fuel is irrelevant above the string length. -/
theorem onePassAux_fuel {kvs : KVs} :
    ∀ f1 f2 s, s.length < f1 → s.length < f2 →
      onePassAux kvs f1 s = onePassAux kvs f2 s := by
  intro f1
  induction f1 with
  | zero => intro f2 s h1; omega
  | succ n ih =>
    intro f2 s h1 h2
    cases f2 with
    | zero => omega
    | succ m =>
      cases s with
      | nil => rfl
      | cons c t =>
        simp only [onePassAux]
        cases hf : findKey kvs (c :: t) with
        | none =>
          dsimp only
          simp only [List.length_cons] at h1 h2
          rw [ih m t (by omega) (by omega)]
        | some kv =>
          dsimp only
          by_cases hke : kv.1 = []
          · rw [if_pos hke, if_pos hke]
            simp only [List.length_cons] at h1 h2
            rw [ih m t (by omega) (by omega)]
          · rw [if_neg hke, if_neg hke]
            have hlen : 0 < kv.1.length := List.length_pos.mpr hke
            simp only [List.length_cons] at h1 h2
            rw [ih m ((c :: t).drop kv.1.length)
              (by simp only [List.length_drop, List.length_cons]; omega)
              (by simp only [List.length_drop, List.length_cons]; omega)]

/-- Step lemma: no key matches at the head. -/
theorem onePass_cons_none {kvs : KVs} {c : Char} {s : List Char}
    (h : findKey kvs (c :: s) = none) :
    onePass kvs (c :: s) = c :: onePass kvs s := by
  unfold onePass
  rw [show onePassAux kvs ((c :: s).length + 1) (c :: s)
      = c :: onePassAux kvs (c :: s).length s by
    simp only [onePassAux, h]]
  rfl

/-- Step lemma: the first matching key is substituted. -/
theorem onePass_cons_some {kvs : KVs} {c : Char} {s : List Char}
    {kv : List Char × List Char} (h : findKey kvs (c :: s) = some kv)
    (hne : kv.1 ≠ []) :
    onePass kvs (c :: s) = kv.2 ++ onePass kvs ((c :: s).drop kv.1.length) := by
  unfold onePass
  rw [show onePassAux kvs ((c :: s).length + 1) (c :: s)
      = kv.2 ++ onePassAux kvs (c :: s).length ((c :: s).drop kv.1.length) by
    simp only [onePassAux, h, if_neg hne]]
  congr 1
  have hlen : 0 < kv.1.length := List.length_pos.mpr hne
  refine onePassAux_fuel _ _ _ ?_ ?_ <;>
    simp only [List.length_drop, List.length_cons] <;> omega

/-- `findKey` on a cons key list. -/
theorem findKey_cons_pos {k v : List Char} {kvs : KVs} {s : List Char}
    (h : k.isPrefixOf s = true) : findKey ((k, v) :: kvs) s = some (k, v) :=
  List.find?_cons_of_pos _ h

/-- `findKey` skips a non-matching head key. -/
theorem findKey_cons_neg {k v : List Char} {kvs : KVs} {s : List Char}
    (h : ¬ k.isPrefixOf s = true) : findKey ((k, v) :: kvs) s = findKey kvs s :=
  List.find?_cons_of_neg _ h

/-- With no keys, the pass copies the string. -/
theorem onePass_nil_keys : ∀ s, onePass ([] : KVs) s = s := by
  intro s
  induction s with
  | nil => rfl
  | cons c t ih =>
    rw [onePass_cons_none (show findKey ([] : KVs) (c :: t) = none from rfl), ih]

/-- Values may not contain either brace. -/
def braceFree (v : List Char) : Prop := lbrace ∉ v ∧ rbrace ∉ v

instance (v : List Char) : Decidable (braceFree v) := by
  unfold braceFree
  infer_instance

/-- A recognized-placeholder key: `{` then a brace-free interior then
`}`. -/
def keyForm (k : List Char) : Prop :=
  ∃ w : List Char, k = lbrace :: w ++ [rbrace] ∧ lbrace ∉ w ∧ rbrace ∉ w

theorem keyForm_ne_nil {k : List Char} (h : keyForm k) : k ≠ [] := by
  obtain ⟨w, rfl, -, -⟩ := h
  simp

/-- The last element is a member. -/
theorem getLast?_mem {α : Type} : ∀ {l : List α} {a : α},
    l.getLast? = some a → a ∈ l := by
  intro l
  induction l with
  | nil => intro a h; cases h
  | cons x xs ih =>
    intro a h
    cases xs with
    | nil =>
      simp only [List.getLast?_singleton, Option.some.injEq] at h
      simp [h]
    | cons y ys =>
      rw [List.getLast?_cons_cons] at h
      exact List.mem_cons_of_mem x (ih h)

/-- `getLast?` ignores the head of a list with a nonempty tail. -/
theorem getLast?_cons_of_ne_nil {α : Type} {a : α} {l : List α} (h : l ≠ []) :
    (a :: l).getLast? = l.getLast? := by
  cases l with
  | nil => exact absurd rfl h
  | cons b t => rw [List.getLast?_cons_cons]

/-- Two keys in key form can only be prefixes of one another if they
are equal. -/
theorem keyForm_prefix_eq {k k' : List Char} (hk : keyForm k) (hk' : keyForm k')
    (hp : k <+: k') : k = k' := by
  obtain ⟨w, rfl, hw1, hw2⟩ := hk
  obtain ⟨w', rfl, hw1', hw2'⟩ := hk'
  rcases hp with ⟨u, hu⟩
  cases u with
  | nil => simpa using hu
  | cons a u' =>
    exfalso
    have h : (w ++ [rbrace]) ++ (a :: u') = w' ++ [rbrace] := by
      have := hu
      simp only [List.cons_append, List.cons.injEq, List.append_assoc] at this
      simpa [List.append_assoc] using this.2
    have hlen : w.length + 1 ≤ w'.length := by
      have := congrArg List.length h
      simp only [List.length_append, List.length_cons, List.length_singleton] at this
      omega
    have htake := congrArg (List.take (w.length + 1)) h
    rw [show w.length + 1 = (w ++ [rbrace]).length by simp, List.take_left] at htake
    rw [show (w ++ [rbrace]).length = w.length + 1 by simp] at htake
    rw [List.take_append_of_le_length hlen] at htake
    have hrb : rbrace ∈ w'.take (w.length + 1) := by
      rw [← htake]
      simp
    exact hw2' (List.take_subset _ _ hrb)

/-- In key form, being a prefix of `k ++ X` is the same as being a
prefix of `k` itself. -/
theorem keyForm_prefix_append {a k : List Char} (ha : keyForm a) (hk : keyForm k)
    (X : List Char) : a <+: k ++ X ↔ a <+: k := by
  constructor
  · intro hp
    rcases le_or_lt a.length k.length with hle | hlt
    · exact List.prefix_of_prefix_length_le hp (List.prefix_append k X) hle
    · have hkp : k <+: a :=
        List.prefix_of_prefix_length_le (List.prefix_append k X) hp (le_of_lt hlt)
      rw [← keyForm_prefix_eq hk ha hkp]
  · intro hp
    exact hp.trans (List.prefix_append k X)

/-- `replaceAll` copies a `{`-free prefix when the pattern starts
with `{`. -/
theorem replaceAll_append_no_lbrace {pat : List Char} (v : List Char)
    (hpat : ∃ t, pat = lbrace :: t) :
    ∀ pre rest : List Char, lbrace ∉ pre →
      replaceAll pat v (pre ++ rest) = pre ++ replaceAll pat v rest := by
  obtain ⟨t, rfl⟩ := hpat
  intro pre
  induction pre with
  | nil => intro rest _; rfl
  | cons c pre' ih =>
    intro rest hl
    have hc : c ≠ lbrace := fun he => hl (he ▸ List.mem_cons_self c pre')
    rw [List.cons_append, replaceAll_cons_neg]
    · rw [ih rest fun hm => hl (List.mem_cons_of_mem c hm)]
      rfl
    · rintro ⟨-, hpref⟩
      rcases List.isPrefixOf_iff_prefix.mp hpref with ⟨u, hu⟩
      rw [List.cons_append] at hu
      injection hu with h1 _
      exact hc h1.symm

/-- `onePass` copies a `{`-free prefix when every key starts with
`{`. -/
theorem onePass_append_no_lbrace {kvs : KVs}
    (hkvs : ∀ kv ∈ kvs, ∃ t, kv.1 = lbrace :: t) :
    ∀ pre rest : List Char, lbrace ∉ pre →
      onePass kvs (pre ++ rest) = pre ++ onePass kvs rest := by
  intro pre
  induction pre with
  | nil => intro rest _; rfl
  | cons c pre' ih =>
    intro rest hl
    have hc : c ≠ lbrace := fun he => hl (he ▸ List.mem_cons_self c pre')
    have hfk : findKey kvs (c :: (pre' ++ rest)) = none := by
      refine List.find?_eq_none.mpr fun kv hkv => ?_
      obtain ⟨t, ht⟩ := hkvs kv hkv
      rw [ht]
      intro hpf
      rcases List.isPrefixOf_iff_prefix.mp hpf with ⟨u, hu⟩
      rw [List.cons_append] at hu
      injection hu with h1 _
      exact hc h1.symm
    rw [List.cons_append, onePass_cons_none hfk,
      ih rest fun hm => hl (List.mem_cons_of_mem c hm)]
    rfl

/-- If `q` ends in `}`, the value `v` contains no `}` and is not an
infix of `q`, then replacement cannot create a `q`-prefix where there
was none. -/
theorem not_prefix_replaceAll (pat v : List Char) (hv : rbrace ∉ v) :
    ∀ n s q, s.length ≤ n → q.getLast? = some rbrace → ¬ v <:+: q →
      ¬ q <+: s → ¬ q <+: replaceAll pat v s := by
  intro n
  induction n with
  | zero =>
    intro s q hlen hql _ _
    cases s with
    | nil =>
      intro hq
      rw [replaceAll_nil] at hq
      have hqe : q = [] := List.prefix_nil.mp hq
      subst hqe
      simp at hql
    | cons c s' => simp at hlen
  | succ n ih =>
    intro s q hlen hql hinf hqs
    cases s with
    | nil =>
      intro hq
      rw [replaceAll_nil] at hq
      have hqe : q = [] := List.prefix_nil.mp hq
      subst hqe
      simp at hql
    | cons c s' =>
      simp only [List.length_cons] at hlen
      by_cases hp : pat ≠ [] ∧ pat.isPrefixOf (c :: s')
      · rw [replaceAll_cons_pos v hp]
        intro hq
        rcases List.prefix_or_prefix_of_prefix hq (List.prefix_append v _)
          with hqv | hvq
        · exact hv (hqv.subset (getLast?_mem hql))
        · exact hinf hvq.isInfix
      · rw [replaceAll_cons_neg v hp]
        intro hq
        cases q with
        | nil => simp at hql
        | cons a q' =>
          rw [List.cons_prefix_cons] at hq
          obtain ⟨rfl, hq'⟩ := hq
          by_cases hq'e : q' = []
          · subst hq'e
            exact hqs ⟨s', rfl⟩
          · rw [getLast?_cons_of_ne_nil hq'e] at hql
            refine ih s' q' (by omega) hql ?_ ?_ hq'
            · intro hvq'
              exact hinf (hvq'.trans (List.suffix_cons a q').isInfix)
            · intro hq's
              exact hqs (List.cons_prefix_cons.mpr ⟨rfl, hq's⟩)

/-- `find?` only depends on the predicate's values on members. -/
theorem find?_congr_mem {α : Type} (p q : α → Bool) :
    ∀ l : List α, (∀ a ∈ l, p a = q a) → l.find? p = l.find? q := by
  intro l
  induction l with
  | nil => intro _; rfl
  | cons x xs ih =>
    intro h
    by_cases hx : p x = true
    · rw [List.find?_cons_of_pos _ hx,
        List.find?_cons_of_pos _ (by rw [← h x (List.mem_cons_self x xs)]; exact hx)]
    · rw [List.find?_cons_of_neg _ hx,
        List.find?_cons_of_neg _ (by rw [← h x (List.mem_cons_self x xs)]; exact hx),
        ih fun a ha => h a (List.mem_cons_of_mem x ha)]

/-- The first matching key after a full key `k` does not depend on
what follows `k`, when all keys are in key form. -/
theorem findKey_append_eq {kvs : KVs} (hkvs : ∀ kv ∈ kvs, keyForm kv.1)
    {k : List Char} (hk : keyForm k) (X Y : List Char) :
    findKey kvs (k ++ X) = findKey kvs (k ++ Y) := by
  refine find?_congr_mem _ _ kvs fun kv hkv => ?_
  have hkf := hkvs kv hkv
  by_cases hpk : kv.1 <+: k
  · have h1 : kv.1.isPrefixOf (k ++ X) = true :=
      List.isPrefixOf_iff_prefix.mpr ((keyForm_prefix_append hkf hk X).mpr hpk)
    have h2 : kv.1.isPrefixOf (k ++ Y) = true :=
      List.isPrefixOf_iff_prefix.mpr ((keyForm_prefix_append hkf hk Y).mpr hpk)
    rw [h1, h2]
  · have h1 : kv.1.isPrefixOf (k ++ X) = false := by
      cases hb : kv.1.isPrefixOf (k ++ X)
      · rfl
      · exact absurd ((keyForm_prefix_append hkf hk X).mp
          (List.isPrefixOf_iff_prefix.mp hb)) hpk
    have h2 : kv.1.isPrefixOf (k ++ Y) = false := by
      cases hb : kv.1.isPrefixOf (k ++ Y)
      · rfl
      · exact absurd ((keyForm_prefix_append hkf hk Y).mp
          (List.isPrefixOf_iff_prefix.mp hb)) hpk
    rw [h1, h2]

/-- Replacing one key first and then one-passing the remaining keys
is the same as one-passing with that key given first priority. -/
theorem onePass_replace (k1 v1 : List Char) (kvs : KVs)
    (hk1 : keyForm k1) (hv1 : braceFree v1)
    (hkvs : ∀ kv ∈ kvs, keyForm kv.1)
    (hcross : ∀ kv ∈ kvs, ¬ v1 <:+: kv.1) :
    ∀ n s, s.length ≤ n →
      onePass kvs (replaceAll k1 v1 s) = onePass ((k1, v1) :: kvs) s := by
  have hheads : ∀ kv ∈ kvs, ∃ t, kv.1 = lbrace :: t := by
    intro kv hkv
    obtain ⟨w, hw, -, -⟩ := hkvs kv hkv
    exact ⟨w ++ [rbrace], hw⟩
  have hk1head : ∃ t, k1 = lbrace :: t := by
    obtain ⟨w, hw, -, -⟩ := hk1
    exact ⟨w ++ [rbrace], hw⟩
  intro n
  induction n with
  | zero =>
    intro s hlen
    have hs : s = [] := List.length_eq_zero.mp (Nat.le_zero.mp hlen)
    subst hs
    rfl
  | succ n ih =>
    intro s hlen
    cases s with
    | nil => rfl
    | cons c s' =>
      simp only [List.length_cons] at hlen
      by_cases hp : k1.isPrefixOf (c :: s') = true
      · have hk1ne : k1 ≠ [] := keyForm_ne_nil hk1
        rw [replaceAll_cons_pos v1 ⟨hk1ne, hp⟩,
          onePass_append_no_lbrace hheads v1 _ hv1.1,
          onePass_cons_some (findKey_cons_pos hp) hk1ne]
        congr 1
        have hdl : ((c :: s').drop k1.length).length ≤ n := by
          simp only [List.length_drop, List.length_cons]
          have hpos : 0 < k1.length := List.length_pos.mpr hk1ne
          omega
        exact ih _ hdl
      · rw [replaceAll_cons_neg v1 (by rintro ⟨-, hpf⟩; exact hp hpf)]
        cases hfk : findKey kvs (c :: s') with
        | some kv =>
          have hkvmem : kv ∈ kvs := List.mem_of_find?_eq_some hfk
          have hkf : keyForm kv.1 := hkvs kv hkvmem
          have hkne : kv.1 ≠ [] := keyForm_ne_nil hkf
          have hpt := List.find?_some hfk
          have hkpre : kv.1 <+: c :: s' := List.isPrefixOf_iff_prefix.mp hpt
          rcases hkpre with ⟨t, ht⟩
          obtain ⟨w, hw, hw1, hw2⟩ := hkf
          have hce : c = lbrace ∧ s' = (w ++ [rbrace]) ++ t := by
            rw [hw, List.cons_append] at ht
            injection ht with e1 e2
            exact ⟨e1.symm, e2.symm⟩
          obtain ⟨rfl, rfl⟩ := hce
          have hbodyfree : lbrace ∉ w ++ [rbrace] := by
            intro hm
            rcases List.mem_append.mp hm with h1 | h1
            · exact hw1 h1
            · have he : lbrace = rbrace := by simpa using h1
              exact absurd he (by decide)
          rw [replaceAll_append_no_lbrace v1 hk1head (w ++ [rbrace]) t hbodyfree]
          have hshape : ∀ R : List Char,
              lbrace :: ((w ++ [rbrace]) ++ R) = kv.1 ++ R := by
            intro R
            rw [hw]
            simp
          have hfk2 : findKey kvs
              (lbrace :: ((w ++ [rbrace]) ++ replaceAll k1 v1 t)) = some kv := by
            rw [hshape,
              findKey_append_eq hkvs ⟨w, hw, hw1, hw2⟩ (replaceAll k1 v1 t) t,
              ← hshape t]
            exact hfk
          rw [onePass_cons_some hfk2 hkne]
          rw [onePass_cons_some (s := (w ++ [rbrace]) ++ t)
            (show findKey ((k1, v1) :: kvs)
                (lbrace :: ((w ++ [rbrace]) ++ t)) = some kv by
              rw [findKey_cons_neg hp]
              exact hfk) hkne]
          congr 1
          have hd1 : (lbrace :: ((w ++ [rbrace]) ++ replaceAll k1 v1 t)).drop
              kv.1.length = replaceAll k1 v1 t := by
            rw [hshape, List.drop_left]
          have hd2 : (lbrace :: ((w ++ [rbrace]) ++ t)).drop kv.1.length = t := by
            rw [hshape, List.drop_left]
          rw [hd1, hd2]
          apply ih
          simp only [List.length_append, List.length_cons] at hlen ⊢
          omega
        | none =>
          have hfk2 : findKey kvs (c :: replaceAll k1 v1 s') = none := by
            refine List.find?_eq_none.mpr fun kv hkv => ?_
            intro hpf
            obtain ⟨w, hw, hw1, hw2⟩ := hkvs kv hkv
            have hnot : ¬ (kv.1.isPrefixOf (c :: s')) = true :=
              List.find?_eq_none.mp hfk kv hkv
            have hpref : kv.1 <+: c :: replaceAll k1 v1 s' :=
              List.isPrefixOf_iff_prefix.mp hpf
            rw [hw, List.cons_append, List.cons_prefix_cons] at hpref
            obtain ⟨he, hq⟩ := hpref
            refine not_prefix_replaceAll k1 v1 hv1.2 s'.length s' (w ++ [rbrace])
              le_rfl (List.getLast?_concat _) ?_ ?_ hq
            · intro hvi
              refine hcross kv hkv ?_
              rw [hw]
              exact hvi.trans ((List.suffix_cons lbrace (w ++ [rbrace])).isInfix)
            · intro hq's
              refine hnot (List.isPrefixOf_iff_prefix.mpr ?_)
              rw [hw, List.cons_append]
              exact List.cons_prefix_cons.mpr ⟨he, hq's⟩
          rw [onePass_cons_none hfk2]
          rw [onePass_cons_none (show findKey ((k1, v1) :: kvs) (c :: s') = none by
            rw [findKey_cons_neg hp]
            exact hfk)]
          congr 1
          exact ih s' (by omega)

/-- The source's sequential replacement over a key list. -/
def seqReplace (kvs : KVs) (s : List Char) : List Char :=
  kvs.foldl (fun acc kv => replaceAll kv.1 kv.2 acc) s

/-- Sequential replacement equals the specification's single pass,
for key-form keys with brace-free values where no earlier value is an
infix of a later key. -/
theorem seqReplace_eq_onePass : ∀ kvs : KVs,
    (∀ kv ∈ kvs, keyForm kv.1) → (∀ kv ∈ kvs, braceFree kv.2) →
    kvs.Pairwise (fun a b => ¬ a.2 <:+: b.1) →
    ∀ s, seqReplace kvs s = onePass kvs s := by
  intro kvs
  induction kvs with
  | nil =>
    intro _ _ _ s
    rw [onePass_nil_keys]
    rfl
  | cons kv rest ih =>
    intro hkeys hvals hpw s
    have hstep : seqReplace (kv :: rest) s
        = seqReplace rest (replaceAll kv.1 kv.2 s) := rfl
    rw [hstep, ih (fun a ha => hkeys a (List.mem_cons_of_mem kv ha))
      (fun a ha => hvals a (List.mem_cons_of_mem kv ha))
      (List.pairwise_cons.mp hpw).2]
    exact onePass_replace kv.1 kv.2 rest (hkeys kv (List.mem_cons_self kv rest))
      (hvals kv (List.mem_cons_self kv rest))
      (fun a ha => hkeys a (List.mem_cons_of_mem kv ha))
      (fun a ha => (List.pairwise_cons.mp hpw).1 a ha)
      s.length s le_rfl

/-- A string containing no key occurrence passes through unchanged. -/
theorem onePass_id_of_no_occurrence (kvs : KVs) :
    ∀ s, (∀ kv ∈ kvs, ¬ kv.1 <:+: s) → onePass kvs s = s := by
  intro s
  induction s with
  | nil => intro _; rfl
  | cons c t ih =>
    intro h
    have hfk : findKey kvs (c :: t) = none := by
      refine List.find?_eq_none.mpr fun kv hkv => ?_
      intro hpf
      exact h kv hkv (List.isPrefixOf_iff_prefix.mp hpf).isInfix
    rw [onePass_cons_none hfk,
      ih fun kv hkv hin => h kv hkv (hin.trans (List.suffix_cons c t).isInfix)]

/-- The key/value list processed by `_apply_templates`, in the
source's dict order, valued at the rendering instant. -/
def templateKVsTg (t : LocalDT) : KVs :=
  [(keyDate, fmtDate t), (keyTime, fmtTime t), (keyDay, dayName t.date),
   (keyMonth, monthName t.date.month), (keyYear, pad4 t.date.year)]

/-- The key/value list processed by `_format_daily_message` (`{year}`
is valued with `str(year)`). -/
def templateKVsSched (t : LocalDT) : KVs :=
  [(keyDate, fmtDate t), (keyTime, fmtTime t), (keyDay, dayName t.date),
   (keyMonth, monthName t.date.month), (keyYear, natToChars t.date.year)]

theorem keyForm_keyDate : keyForm keyDate :=
  ⟨"date".toList, rfl, by decide, by decide⟩

theorem keyForm_keyTime : keyForm keyTime :=
  ⟨"time".toList, rfl, by decide, by decide⟩

theorem keyForm_keyDay : keyForm keyDay :=
  ⟨"day".toList, rfl, by decide, by decide⟩

theorem keyForm_keyMonth : keyForm keyMonth :=
  ⟨"month".toList, rfl, by decide, by decide⟩

theorem keyForm_keyYear : keyForm keyYear :=
  ⟨"year".toList, rfl, by decide, by decide⟩

theorem digitChar_not_braces (n : Nat) :
    digitChar n ≠ lbrace ∧ digitChar n ≠ rbrace := by
  unfold digitChar
  split <;> exact ⟨by decide, by decide⟩

theorem natToCharsAux_not_braces :
    ∀ fuel n : Nat, ∀ c ∈ natToCharsAux fuel n, c ≠ lbrace ∧ c ≠ rbrace := by
  intro fuel
  induction fuel with
  | zero => intro n c hc; cases hc
  | succ f ih =>
    intro n c hc
    simp only [natToCharsAux] at hc
    by_cases h10 : n < 10
    · rw [if_pos h10] at hc
      have he : c = digitChar n := List.mem_singleton.mp hc
      subst he
      exact digitChar_not_braces n
    · rw [if_neg h10] at hc
      rcases List.mem_append.mp hc with h1 | h1
      · exact ih _ c h1
      · have he : c = digitChar (n % 10) := List.mem_singleton.mp h1
        subst he
        exact digitChar_not_braces _

theorem natToChars_braceFree (n : Nat) : braceFree (natToChars n) := by
  constructor
  · intro hm
    exact (natToCharsAux_not_braces (n + 1) n lbrace hm).1 rfl
  · intro hm
    exact (natToCharsAux_not_braces (n + 1) n rbrace hm).2 rfl

theorem braceFree_cons {c : Char} {l : List Char} (hc1 : c ≠ lbrace)
    (hc2 : c ≠ rbrace) (hl : braceFree l) : braceFree (c :: l) := by
  constructor
  · intro hm
    rcases List.mem_cons.mp hm with h1 | h1
    · exact hc1 h1.symm
    · exact hl.1 h1
  · intro hm
    rcases List.mem_cons.mp hm with h1 | h1
    · exact hc2 h1.symm
    · exact hl.2 h1

theorem braceFree_append {l1 l2 : List Char} (h1 : braceFree l1)
    (h2 : braceFree l2) : braceFree (l1 ++ l2) := by
  constructor
  · intro hm
    rcases List.mem_append.mp hm with h | h
    · exact h1.1 h
    · exact h2.1 h
  · intro hm
    rcases List.mem_append.mp hm with h | h
    · exact h1.2 h
    · exact h2.2 h

theorem pad2_braceFree (n : Nat) : braceFree (pad2 n) := by
  unfold pad2
  split
  · exact braceFree_cons (by decide) (by decide) (natToChars_braceFree n)
  · exact natToChars_braceFree n

theorem pad4_braceFree (n : Nat) : braceFree (pad4 n) := by
  unfold pad4
  split
  · exact braceFree_cons (by decide) (by decide) (braceFree_cons (by decide)
      (by decide) (braceFree_cons (by decide) (by decide) (natToChars_braceFree n)))
  · split
    · exact braceFree_cons (by decide) (by decide)
        (braceFree_cons (by decide) (by decide) (natToChars_braceFree n))
    · split
      · exact braceFree_cons (by decide) (by decide) (natToChars_braceFree n)
      · exact natToChars_braceFree n

theorem fmtDate_braceFree (t : LocalDT) : braceFree (fmtDate t) := by
  unfold fmtDate
  exact braceFree_append (braceFree_append (braceFree_append (braceFree_append
    (pad4_braceFree _) (show braceFree ['-'] by decide)) (pad2_braceFree _))
    (show braceFree ['-'] by decide)) (pad2_braceFree _)

theorem fmtTime_braceFree (t : LocalDT) : braceFree (fmtTime t) := by
  unfold fmtTime
  exact braceFree_append (braceFree_append (pad2_braceFree _)
    (show braceFree [':'] by decide)) (pad2_braceFree _)

theorem dayName_braceFree (d : PyDate) : braceFree (dayName d) := by
  unfold dayName
  split <;> decide

theorem monthName_braceFree (m : Nat) : braceFree (monthName m) := by
  unfold monthName
  split <;> decide

/-- Membership-based non-infix criterion. -/
theorem not_infix_of_mem_not_mem {v k : List Char} {c : Char} (hcv : c ∈ v)
    (hck : c ∉ k) : ¬ v <:+: k := fun h => hck (h.subset hcv)

theorem dash_mem_fmtDate (t : LocalDT) : '-' ∈ fmtDate t := by
  unfold fmtDate
  simp

theorem colon_mem_fmtTime (t : LocalDT) : ':' ∈ fmtTime t := by
  unfold fmtTime
  simp

theorem dayName_no_occur (d : PyDate) :
    ¬ dayName d <:+: keyMonth ∧ ¬ dayName d <:+: keyYear := by
  unfold dayName
  split <;> exact ⟨by decide, by decide⟩

theorem monthName_no_occur (m : Nat) : ¬ monthName m <:+: keyYear := by
  unfold monthName
  split <;> decide

theorem tgKVs_keyform (t : LocalDT) : ∀ kv ∈ templateKVsTg t, keyForm kv.1 := by
  intro kv hkv
  simp only [templateKVsTg, List.mem_cons, List.not_mem_nil, or_false] at hkv
  rcases hkv with rfl | rfl | rfl | rfl | rfl
  · exact keyForm_keyDate
  · exact keyForm_keyTime
  · exact keyForm_keyDay
  · exact keyForm_keyMonth
  · exact keyForm_keyYear

theorem schedKVs_keyform (t : LocalDT) :
    ∀ kv ∈ templateKVsSched t, keyForm kv.1 := by
  intro kv hkv
  simp only [templateKVsSched, List.mem_cons, List.not_mem_nil, or_false] at hkv
  rcases hkv with rfl | rfl | rfl | rfl | rfl
  · exact keyForm_keyDate
  · exact keyForm_keyTime
  · exact keyForm_keyDay
  · exact keyForm_keyMonth
  · exact keyForm_keyYear

theorem tgKVs_braceFree (t : LocalDT) :
    ∀ kv ∈ templateKVsTg t, braceFree kv.2 := by
  intro kv hkv
  simp only [templateKVsTg, List.mem_cons, List.not_mem_nil, or_false] at hkv
  rcases hkv with rfl | rfl | rfl | rfl | rfl
  · exact fmtDate_braceFree t
  · exact fmtTime_braceFree t
  · exact dayName_braceFree t.date
  · exact monthName_braceFree t.date.month
  · exact pad4_braceFree t.date.year

theorem schedKVs_braceFree (t : LocalDT) :
    ∀ kv ∈ templateKVsSched t, braceFree kv.2 := by
  intro kv hkv
  simp only [templateKVsSched, List.mem_cons, List.not_mem_nil, or_false] at hkv
  rcases hkv with rfl | rfl | rfl | rfl | rfl
  · exact fmtDate_braceFree t
  · exact fmtTime_braceFree t
  · exact dayName_braceFree t.date
  · exact monthName_braceFree t.date.month
  · exact natToChars_braceFree t.date.year

theorem tgKVs_pairwise (t : LocalDT) :
    (templateKVsTg t).Pairwise (fun a b => ¬ a.2 <:+: b.1) := by
  refine List.Pairwise.cons ?_ (List.Pairwise.cons ?_ (List.Pairwise.cons ?_
    (List.Pairwise.cons ?_ (List.Pairwise.cons ?_ List.Pairwise.nil))))
  · intro b hb
    simp only [List.mem_cons, List.not_mem_nil, or_false] at hb
    rcases hb with rfl | rfl | rfl | rfl <;>
      exact not_infix_of_mem_not_mem (dash_mem_fmtDate t) (by dsimp only; decide)
  · intro b hb
    simp only [List.mem_cons, List.not_mem_nil, or_false] at hb
    rcases hb with rfl | rfl | rfl <;>
      exact not_infix_of_mem_not_mem (colon_mem_fmtTime t) (by dsimp only; decide)
  · intro b hb
    simp only [List.mem_cons, List.not_mem_nil, or_false] at hb
    rcases hb with rfl | rfl
    · exact (dayName_no_occur t.date).1
    · exact (dayName_no_occur t.date).2
  · intro b hb
    simp only [List.mem_cons, List.not_mem_nil, or_false] at hb
    rcases hb with rfl
    exact monthName_no_occur t.date.month
  · intro b hb
    simp at hb

theorem schedKVs_pairwise (t : LocalDT) :
    (templateKVsSched t).Pairwise (fun a b => ¬ a.2 <:+: b.1) := by
  refine List.Pairwise.cons ?_ (List.Pairwise.cons ?_ (List.Pairwise.cons ?_
    (List.Pairwise.cons ?_ (List.Pairwise.cons ?_ List.Pairwise.nil))))
  · intro b hb
    simp only [List.mem_cons, List.not_mem_nil, or_false] at hb
    rcases hb with rfl | rfl | rfl | rfl <;>
      exact not_infix_of_mem_not_mem (dash_mem_fmtDate t) (by dsimp only; decide)
  · intro b hb
    simp only [List.mem_cons, List.not_mem_nil, or_false] at hb
    rcases hb with rfl | rfl | rfl <;>
      exact not_infix_of_mem_not_mem (colon_mem_fmtTime t) (by dsimp only; decide)
  · intro b hb
    simp only [List.mem_cons, List.not_mem_nil, or_false] at hb
    rcases hb with rfl | rfl
    · exact (dayName_no_occur t.date).1
    · exact (dayName_no_occur t.date).2
  · intro b hb
    simp only [List.mem_cons, List.not_mem_nil, or_false] at hb
    rcases hb with rfl
    exact monthName_no_occur t.date.month
  · intro b hb
    simp at hb

/-- Claim C6.  Both source renderers (`_apply_templates` and
`_format_daily_message`) equal the specification's single
left-to-right pass over the five recognized keys, valued at the
rendering instant in the record's timezone: every occurrence of a
recognized placeholder is replaced by its value, replacement is never
re-matched inside previously inserted text (that is exactly what the
single pass expresses), and a template in which no recognized key
occurs — in particular one containing only unknown placeholders — is
returned verbatim without error. -/
theorem claim_C6 (msg : List Char) (t : LocalDT) :
    apply_templates msg t = onePass (templateKVsTg t) msg ∧
    format_daily_message msg t = onePass (templateKVsSched t) msg ∧
    ((∀ kv ∈ templateKVsTg t, ¬ kv.1 <:+: msg) → apply_templates msg t = msg) := by
  have h1 : apply_templates msg t = onePass (templateKVsTg t) msg :=
    seqReplace_eq_onePass (templateKVsTg t) (tgKVs_keyform t)
      (tgKVs_braceFree t) (tgKVs_pairwise t) msg
  have h2 : format_daily_message msg t = onePass (templateKVsSched t) msg :=
    seqReplace_eq_onePass (templateKVsSched t) (schedKVs_keyform t)
      (schedKVs_braceFree t) (schedKVs_pairwise t) msg
  refine ⟨h1, h2, fun h => ?_⟩
  rw [h1]
  exact onePass_id_of_no_occurrence _ msg h

/-- Witness for C6: the spec's own scenario (`"Hi {day}"` on Monday
2024-01-01 renders `"Hi Monday"`) and an unknown placeholder passing
through verbatim. -/
theorem claim_C6_witness :
    apply_templates ("Hi ".toList ++ keyDay) ⟨⟨2024, 1, 1⟩, 9, 0⟩
        = "Hi Monday".toList ∧
    apply_templates ("plain ".toList ++ [lbrace] ++ "unknown".toList ++ [rbrace])
        ⟨⟨2024, 1, 1⟩, 9, 0⟩
      = "plain ".toList ++ [lbrace] ++ "unknown".toList ++ [rbrace] := by
  constructor
  · rw [(claim_C6 ("Hi ".toList ++ keyDay) ⟨⟨2024, 1, 1⟩, 9, 0⟩).1]
    decide
  · refine (claim_C6 _ _).2.2 ?_
    intro kv hkv
    simp only [templateKVsTg, List.mem_cons, List.not_mem_nil, or_false] at hkv
    rcases hkv with rfl | rfl | rfl | rfl | rfl <;> decide

end Bot
